import Mathlib

set_option linter.all false
set_option maxRecDepth 8192

/-! Verification of the core of the `alac` Rust crate (an Apple Lossless
    Audio Codec decoder): the big-endian bit cursor, the magic-cookie
    parser, adaptive Rice decoding, LPC prediction and the packet
    dispatcher.  The Rust code is modelled with release-build integer
    semantics: `uN`/`iN` arithmetic wraps modulo `2^N` and shift amounts
    are masked by the word width. -/

/-- Modulus of u32 arithmetic. -/
def M32 : Nat := 4294967296

/-- Modulus of u8 arithmetic. -/
def M8 : Nat := 256

/-- Modulus of u16 arithmetic. -/
def M16 : Nat := 65536

/-- Modulus of usize (64-bit) arithmetic. -/
def M64 : Nat := 18446744073709551616

/-- Wrap a value into u32 range. -/
def wrap32 (n : Nat) : Nat := n % M32

/-- Wrap a value into u8 range. -/
def wrap8 (n : Nat) : Nat := n % M8

/-- Wrap a value into u16 range. -/
def wrap16 (n : Nat) : Nat := n % M16

/-- u32 subtraction `a - b` with two's-complement wrap-around
    (release-build semantics of Rust's `-` on `u32`). -/
def u32sub (a b : Nat) : Nat := (a % M32 + M32 - b % M32) % M32

/-- usize subtraction with wrap-around. -/
def u64sub (a b : Nat) : Nat := (a % M64 + M64 - b % M64) % M64

/-- u32 left shift; Rust masks the shift amount by the word width in
    release builds. -/
def shl32 (a n : Nat) : Nat := (a % M32) * 2 ^ (n % 32) % M32

/-- u32 right shift with masked shift amount. -/
def shr32 (a n : Nat) : Nat := (a % M32) / 2 ^ (n % 32)

/-- Reinterpret a u32 bit pattern as an i32 value. -/
def toI32 (n : Nat) : Int :=
  if n % M32 < 2147483648 then (n % M32 : Int) else (n % M32 : Int) - (M32 : Int)

/-- Reinterpret a u8 bit pattern as an i8 value (`as i8` cast). -/
def toI8 (n : Nat) : Int :=
  if n % 256 < 128 then (n % 256 : Int) else (n % 256 : Int) - 256

/-- Wrap an integer into i32 range (two's-complement wrap-around). -/
def wrapI32 (x : Int) : Int := (x + 2147483648) % (M32 : Int) - 2147483648

/-- Wrap an integer into i16 range (two's-complement wrap-around,
    the release-build semantics of `+=` on `i16`). -/
def wrapI16 (x : Int) : Int := (x + 32768) % (65536 : Int) - 32768

/-- Saturating conversion into i16 range (`i16::saturating_add` would
    clamp at the bounds instead of wrapping). -/
def satI16 (x : Int) : Int := max (-32768) (min 32767 x)

/-- Arithmetic (sign-preserving) right shift of an i32 value; the shift
    amount is masked by the word width as Rust does in release builds.
    Arithmetic shift right is floor division by the power of two. -/
def ashr32 (x : Int) (n : Nat) : Int := Int.fdiv x (2 ^ (n % 32))

/-- The u32 bit pattern of an i32 value (for bitwise operations). -/
def bitsOfI32 (x : Int) : Nat := (x % (M32 : Int)).toNat % M32

/-- Bitwise or of an i32 value with a non-negative extra-bits value,
    modelling Rust's `i32 | i32` via the two's-complement bit patterns. -/
def lorI32 (x : Int) (e : Nat) : Int := toI32 (bitsOfI32 x ||| (e % M32))

/-- Errors produced by the decoder model.  `invalidData` is the public
    `InvalidData` error; `notEnoughData` is the bit cursor's internal
    error (mapped to `invalidData` at the decoder boundary, like the
    `From<NotEnoughData> for InvalidData` impl); `bufferTooLong` models
    `BufferTooLong`; `panicked` models a Rust panic (a failing `assert!`
    or an unreachable branch). -/
inductive DErr where
  | invalidData : DErr
  | notEnoughData : DErr
  | bufferTooLong : DErr
  | panicked : DErr
deriving DecidableEq, Repr

instance decEqExceptDErr {α : Type} [DecidableEq α] : DecidableEq (Except DErr α) := fun a b =>
  match a, b with
  | .ok x, .ok y =>
    if h : x = y then .isTrue (by rw [h]) else .isFalse (by intro hh; cases hh; exact h rfl)
  | .ok _, .error _ => .isFalse (by intro hh; cases hh)
  | .error _, .ok _ => .isFalse (by intro hh; cases hh)
  | .error e, .error f =>
    if h : e = f then .isTrue (by rw [h]) else .isFalse (by intro hh; cases hh; exact h rfl)

/-- The bit cursor over a byte slice (`BitCursor` in `bitcursor.rs`):
    a list of remaining bytes plus a 32-bit register `current` of which
    `currentLen` bits are valid and `currentPos` bits are already
    consumed. -/
structure BitCursor where
  buf : List Nat
  current : Nat
  currentLen : Nat
  currentPos : Nat
deriving DecidableEq, Repr

/-- Number of unread bits left in the cursor. -/
def bitsRemaining (c : BitCursor) : Nat :=
  8 * c.buf.length + (c.currentLen - c.currentPos)

/-- `BitCursor::advance`: refill the register with the next
    `min 4 buf.len` bytes (missing bytes read as zero). -/
def BitCursor.advance (c : BitCursor) : BitCursor :=
  let n := min 4 c.buf.length
  let b0 := c.buf.getD 0 0 % 256
  let b1 := c.buf.getD 1 0 % 256
  let b2 := c.buf.getD 2 0 % 256
  let b3 := c.buf.getD 3 0 % 256
  { buf := c.buf.drop n
    current := b0 * 16777216 + b1 * 65536 + b2 * 256 + b3
    currentLen := 8 * n
    currentPos := 0 }

/-- `BitCursor::new`: reject absurdly long buffers
    (`buf.len() > usize::MAX << 3`, which wraps to `2^64 - 8`),
    then fill the register. -/
def BitCursor.new (buf : List Nat) : Except DErr BitCursor :=
  if buf.length > M64 - 8 then .error .bufferTooLong
  else .ok (BitCursor.advance { buf := buf, current := 0, currentLen := 0, currentPos := 0 })

/-- `BitCursor::read_u32` (the workhorse read): `assert!(bits <= 32)`,
    check that enough bits remain, then read from the register,
    refilling it when the read consumes the register's remaining bits.
    Shift amounts follow release-build masking. -/
def BitCursor.readU32 (c : BitCursor) (bits : Nat) : Except DErr (Nat × BitCursor) :=
  if 32 < bits then .error .panicked
  else if bits ≤ bitsRemaining c then
    let val := shl32 c.current c.currentPos
    if c.currentLen - c.currentPos ≤ bits then
      let prevPos := c.currentPos
      let br := bits - (c.currentLen - c.currentPos)
      let c2 := c.advance
      let val2 := val ||| shr32 (shr32 c2.current (u64sub 31 prevPos)) 1
      .ok (shr32 val2 (32 - bits), { c2 with currentPos := br })
    else
      .ok (shr32 val (32 - bits), { c with currentPos := c.currentPos + bits })
  else .error .notEnoughData

/-- `BitCursor::read_u32` as a state transformer that keeps the cursor on
    failure: in the Rust method both error exits (`assert!` and
    `check_enough_bits`) happen before any mutation of `&mut self`. -/
def BitCursor.readU32St (c : BitCursor) (bits : Nat) : Except DErr Nat × BitCursor :=
  match c.readU32 bits with
  | .ok (v, c2) => (.ok v, c2)
  | .error e => (.error e, c)

/-- `BitCursor::read_bit`: a one-bit read; the value is 0 or 1. -/
def BitCursor.readBit (c : BitCursor) : Except DErr (Bool × BitCursor) := do
  let (v, c) ← c.readU32 1
  pure (v == 1, c)

/-- `BitCursor::read_u8`: `assert!(bits <= 8)`, then a `read_u32`
    truncated with `as u8`. -/
def BitCursor.readU8 (c : BitCursor) (bits : Nat) : Except DErr (Nat × BitCursor) :=
  if 8 < bits then .error .panicked
  else do
    let (v, c) ← c.readU32 bits
    pure (wrap8 v, c)

/-- `BitCursor::read_u16`: `assert!(bits <= 16)`, then a `read_u32`
    truncated with `as u16`. -/
def BitCursor.readU16 (c : BitCursor) (bits : Nat) : Except DErr (Nat × BitCursor) :=
  if 16 < bits then .error .panicked
  else do
    let (v, c) ← c.readU32 bits
    pure (wrap16 v, c)

/-- `BitCursor::skip`: advance by `bits` bits, refilling the register
    when skipping past its end. -/
def BitCursor.skip (c : BitCursor) (bits : Nat) : Except DErr BitCursor :=
  if bits ≤ bitsRemaining c then
    if c.currentLen - c.currentPos ≤ bits then
      let sb := bits - (c.currentLen - c.currentPos)
      let c2 := BitCursor.advance { c with buf := c.buf.drop (sb / 8) }
      .ok { c2 with currentPos := sb % 8 }
    else .ok { c with currentPos := c.currentPos + bits }
  else .error .notEnoughData

/-- `BitCursor::skip_to_byte`: advance 0..7 bits to a byte boundary. -/
def BitCursor.skipToByte (c : BitCursor) : Except DErr BitCursor :=
  let p := c.currentPos % 8
  if p ≠ 0 then c.skip (8 - p) else .ok c

/-- Well-formedness of a cursor state: the register position does not
    exceed the register length and the register holds at most 32 bits.
    Every state constructed through the `BitCursor` API satisfies this
    (the fields are `u8`s maintained that way by `new`, `read_u32` and
    `skip`). -/
def BitCursor.WF (c : BitCursor) : Prop :=
  c.currentPos ≤ c.currentLen ∧ c.currentLen ≤ 32

/-- u8 subtraction with two's-complement wrap-around. -/
def u8sub (a b : Nat) : Nat := (a % 256 + 256 - b % 256) % 256

/-- Reinterpret a u16 bit pattern as an i16 value (`as i16` cast). -/
def toI16 (n : Nat) : Int :=
  if n % 65536 < 32768 then (n % 65536 : Int) else (n % 65536 : Int) - 65536

/-- Big-endian u16 read of two bytes at offset `i` (`read_be_u16`). -/
def readBeU16 (l : List Nat) (i : Nat) : Nat :=
  (l.getD i 0 % 256) * 256 + l.getD (i + 1) 0 % 256

/-- Big-endian u32 read of four bytes at offset `i` (`read_be_u32`). -/
def readBeU32 (l : List Nat) (i : Nat) : Nat :=
  (l.getD i 0 % 256) * 16777216 + (l.getD (i + 1) 0 % 256) * 65536 +
    (l.getD (i + 2) 0 % 256) * 256 + l.getD (i + 3) 0 % 256

/-- Codec initialisation parameters for an ALAC stream (`StreamInfo`). -/
structure StreamInfo where
  frameLength : Nat
  compatibleVersion : Nat
  bitDepth : Nat
  pb : Nat
  mb : Nat
  kb : Nat
  numChannels : Nat
  maxRun : Nat
  maxFrameBytes : Nat
  avgBitRate : Nat
  sampleRate : Nat
deriving DecidableEq, Repr

/-- `StreamInfo::validate`: requires at least one channel, no overflow in
    `frame_length * num_channels` (a u32 `checked_mul`), and a nonzero
    bit depth. -/
def StreamInfo.validate (s : StreamInfo) : Except DErr StreamInfo :=
  if s.numChannels = 0 then .error .invalidData
  else if M32 ≤ s.frameLength * s.numChannels then .error .invalidData
  else if s.bitDepth = 0 then .error .invalidData
  else .ok s

/-- The four bytes at offsets 4..8 of a cookie, used to detect legacy
    `frma`/`alac` atom headers. -/
def atomTag (l : List Nat) : List Nat :=
  [l.getD 4 0 % 256, l.getD 5 0 % 256, l.getD 6 0 % 256, l.getD 7 0 % 256]

/-- The byte values of `"frma"`. -/
def frmaTag : List Nat := [102, 114, 109, 97]

/-- The byte values of `"alac"`. -/
def alacTag : List Nat := [97, 108, 97, 99]

/-- `StreamInfo::from_cookie`: bounds check, strip an optional `frma`
    atom then an optional `alac` atom (12 bytes each), check at least 24
    bytes remain, parse the fixed big-endian layout, and validate. -/
def StreamInfo.fromCookie (cookie : List Nat) : Except DErr StreamInfo :=
  if cookie.length < 24 then .error .invalidData
  else
    let c1 := if atomTag cookie = frmaTag then cookie.drop 12 else cookie
    let c2 := if atomTag c1 = alacTag then c1.drop 12 else c1
    if c2.length < 24 then .error .invalidData
    else
      StreamInfo.validate
        { frameLength := readBeU32 c2 0
          compatibleVersion := c2.getD 4 0 % 256
          bitDepth := c2.getD 5 0 % 256
          pb := c2.getD 6 0 % 256
          mb := c2.getD 7 0 % 256
          kb := c2.getD 8 0 % 256
          numChannels := c2.getD 9 0 % 256
          maxRun := readBeU16 c2 10
          maxFrameBytes := readBeU32 c2 12
          avgBitRate := readBeU32 c2 16
          sampleRate := readBeU32 c2 20 }

/-- `StreamInfo::max_samples_per_packet` = `frame_length * num_channels`
    (validation guarantees the product fits in u32). -/
def maxSamplesPerPacket (s : StreamInfo) : Nat := s.frameLength * s.numChannels

/-- The `From<NotEnoughData> for InvalidData` conversion applied by `?`
    at every bit-cursor call inside `dec.rs`. -/
def rd {α : Type} (x : Except DErr α) : Except DErr α :=
  match x with
  | .error .notEnoughData => .error .invalidData
  | x => x

/-- The unary-prefix loop of `decode_rice_symbol`:
    `while q != 9 && reader.read_bit()? { q += 1 }`.
    The fuel argument is `9 - q`, so at fuel 0 we have `q = 9` and the
    short-circuiting `&&` reads no further bit. -/
def riceUnaryGo : Nat → Nat → BitCursor → Except DErr (Nat × BitCursor)
  | 0, q, c => .ok (q, c)
  | f + 1, q, c => do
    let (b, c) ← rd c.readBit
    if b then riceUnaryGo f (q + 1) c else .ok (q, c)

/-- `decode_rice_symbol(reader, m, k, bps)`: unary prefix `q` capped at
    9; escape to a `bps`-bit binary read at `q = 9`; `k = 1` has no
    remainder; otherwise a `k-1`-bit remainder with a conditional extra
    bit.  `k - 1` is a usize subtraction (callers always pass `k >= 1`;
    `k = 0` would wrap and hit the `assert!(bits <= 32)` panic). -/
def decodeRiceSymbol (c : BitCursor) (m k bps : Nat) : Except DErr (Nat × BitCursor) := do
  let (q, c) ← riceUnaryGo 9 0 c
  if q = 9 then
    let (v, c) ← rd (c.readU32 bps)
    pure (v, c)
  else if k = 1 then
    pure (q, c)
  else do
    let (r, c) ← rd (c.readU32 (u64sub k 1))
    let (r, c) ← if r > 0 then do
        let (e, c) ← rd c.readBit
        let eb : Nat := if e then 1 else 0
        pure (u32sub (wrap32 (wrap32 (r * 2) + eb)) 1, c)
      else pure (r, c)
    pure (wrap32 (wrap32 (q * m) + r), c)

/-- Fueled bit-length helper (structural, so the kernel can evaluate it). -/
def bitLenGo : Nat → Nat → Nat
  | 0, _ => 0
  | f + 1, n => if n = 0 then 0 else bitLenGo f (n / 2) + 1

/-- Number of binary digits of a u32 value. -/
def bitLen32 (n : Nat) : Nat := bitLenGo 32 (n % M32)

/-- `u32::leading_zeros`. -/
def clz32 (n : Nat) : Nat := 32 - bitLen32 n

/-- `log_2(x) = 31 - (x | 1).leading_zeros()` from `rice_decompress`. -/
def log2u (x : Nat) : Nat := 31 - clz32 (x % M32 ||| 1)

/-- ZigZag decoding `(val >> 1) as i32 ^ -((val & 1) as i32)`:
    xor with 0 is the identity and xor with -1 (all ones) is the two's
    complement bitwise negation `x ^ -1 = -x - 1`; `val >> 1 < 2^31`, so
    the `as i32` cast preserves the value. -/
def zigzag (val : Nat) : Int :=
  if val % 2 = 1 then -((val / 2 : Nat) : Int) - 1 else ((val / 2 : Nat) : Int)

/-- The rice history update of `rice_decompress`:
    clamp to 0xffff for large symbols, otherwise
    `(rice_history + val * mult) - ((rice_history * mult) >> 9)` in
    wrapping u32 arithmetic. -/
def riceHistoryUpdate (mult h val : Nat) : Nat :=
  if val > 65535 then 65535
  else u32sub (wrap32 (h + wrap32 (val * mult))) (shr32 (wrap32 (h * mult)) 9)

/-- Zero out `cnt` entries of `buf` starting at `start`
    (the zero-run fill loop of `rice_decompress`). -/
def zeroFillGo : Nat → List Int → Nat → List Int
  | 0, buf, _ => buf
  | f + 1, buf, idx => zeroFillGo f (buf.set idx 0) (idx + 1)

/-- Zero-fill wrapper: `buf[start .. start + cnt] = 0`. -/
def zeroFill (buf : List Int) (start cnt : Nat) : List Int := zeroFillGo cnt buf start

/-- The zero-run rice parameter
    `k = rice_history.leading_zeros() - 24 + ((rice_history + 16) >> 6)`
    (u32 arithmetic; the guard `rice_history < 128` keeps the
    subtraction from wrapping). -/
def kRunOf (h : Nat) : Nat :=
  wrap32 (u32sub (clz32 h) 24 + shr32 (wrap32 (h + 16)) 6)

/-- The block-of-zeros branch of `rice_decompress` (the body of
    `if (rice_history < 128) && (i + 1 < buf.len())`), given the rice
    limit `kMax`, the cursor, the buffer, the loop index and the updated
    history.  Returns the new cursor, buffer, index, sign modifier and
    history. -/
def zeroRunPhase (kMax : Nat) (c : BitCursor) (buf : List Int) (i h : Nat) :
    Except DErr (BitCursor × List Int × Nat × Nat × Nat) := do
  let k := kRunOf h
  let wb := shl32 1 kMax - 1
  let m := (shl32 1 k - 1) &&& wb
  let (run, c) ← decodeRiceSymbol c m k 16
  if run > 0 then
    if run ≥ buf.length - i then .error .invalidData
    else
      let buf := zeroFill buf (i + 1) run
      let i := i + run
      let sm := if run ≤ 65535 then 1 else 0
      .ok (c, buf, i, sm, 0)
  else
    let sm := if run ≤ 65535 then 1 else 0
    .ok (c, buf, i, sm, 0)

/-- State of the `rice_decompress` loop: cursor, output buffer,
    `rice_history`, `sign_modifier` and the loop index. -/
structure RiceSt where
  c : BitCursor
  buf : List Int
  h : Nat
  sm : Nat
  i : Nat
deriving DecidableEq, Repr

/-- One iteration of the `rice_decompress` `while` loop.  Besides the
    next state it reports the pair `(rice_history, val)` that was fed
    into the history update, so that reachable update states can be
    stated and computed. -/
def riceStep (mult kMax bps : Nat) (st : RiceSt) : Except DErr (RiceSt × (Nat × Nat)) := do
  let k := min (log2u (shr32 st.h 9 + 3)) kMax
  let m := shl32 1 k - 1
  let (val0, c) ← decodeRiceSymbol st.c m k bps
  let val := wrap32 (val0 + st.sm)
  let buf := st.buf.set st.i (zigzag val)
  let h2 := riceHistoryUpdate mult st.h val
  let upd := (st.h, val)
  if h2 < 128 ∧ st.i + 1 < buf.length then do
    let (c, buf, i, sm, h3) ← zeroRunPhase kMax c buf st.i h2
    .ok ({ c := c, buf := buf, h := h3, sm := sm, i := i + 1 }, upd)
  else
    .ok ({ c := c, buf := buf, h := h2, sm := 0, i := st.i + 1 }, upd)

/-- The `while i < buf.len()` loop of `rice_decompress`, with a trace of
    the history-update pairs.  Each iteration increases `i` by at least
    one, so fuel `buf.length + 1` never runs out. -/
def riceLoopTr : Nat → Nat → Nat → Nat → RiceSt → Except DErr (RiceSt × List (Nat × Nat))
  | 0, _, _, _, st => if st.i < st.buf.length then .error .panicked else .ok (st, [])
  | f + 1, mult, kMax, bps, st =>
    if st.i < st.buf.length then do
      let (st2, upd) ← riceStep mult kMax bps st
      let (stF, tr) ← riceLoopTr f mult kMax bps st2
      .ok (stF, upd :: tr)
    else .ok (st, [])

/-- `rice_decompress(reader, config, buf, bps, pb_factor)`: run the
    adaptive rice loop over the whole buffer.  `rice_history` starts at
    `config.mb`, `rice_history_mult = (config.pb * pb_factor) / 4` and
    the rice limit is `config.kb`. -/
def riceDecompress (cfg : StreamInfo) (c : BitCursor) (buf : List Int) (bps pbFactor : Nat) :
    Except DErr (List Int × BitCursor) :=
  let mult := cfg.pb * pbFactor / 4
  (riceLoopTr (buf.length + 1) mult cfg.kb bps
      { c := c, buf := buf, h := cfg.mb, sm := 0, i := 0 }).map
    (fun p => (p.1.buf, p.1.c))

/-- The history-update pairs `(rice_history, val)` produced while rice
    decompressing, in order. -/
def riceTrace (cfg : StreamInfo) (c : BitCursor) (buf : List Int) (bps pbFactor : Nat) :
    Except DErr (List (Nat × Nat)) :=
  let mult := cfg.pb * pbFactor / 4
  (riceLoopTr (buf.length + 1) mult cfg.kb bps
      { c := c, buf := buf, h := cfg.mb, sm := 0, i := 0 }).map
    (fun p => p.2)

/-- `sign_extend(val, bits) = (val << (32 - bits)) >> (32 - bits)` on
    i32, i.e. sign extension of the low `bits` bits (shift amounts
    masked; callers pass `bits <= 32`). -/
def signExtend (v : Int) (bits : Nat) : Int :=
  let s := (32 - bits) % 32
  ashr32 (wrapI32 (v * 2 ^ s)) s

/-- The shared first-order differential loop
    `buf[i] = sign_extend(buf[i] + buf[i - 1], bps)` for `cnt` steps
    starting at index `i` (used by `lpc_predict_order_31` and by the
    warm-up of `lpc_predict`). -/
def diffRunGo (bps : Nat) : Nat → Nat → List Int → List Int
  | 0, _, buf => buf
  | f + 1, i, buf =>
    diffRunGo bps f (i + 1)
      (buf.set i (signExtend (wrapI32 (buf.getD i 0 + buf.getD (i - 1) 0)) bps))

/-- `lpc_predict_order_31(buf, bps)`: first-order differential coding
    over the whole buffer (`for i in 1..buf.len()`). -/
def lpcPredictOrder31 (buf : List Int) (bps : Nat) : List Int :=
  diffRunGo bps (buf.length - 1) 1 buf

/-- The prediction sum
    `predicted = sum over j < order of (buf[base + j] - mean) * coefs[j]`
    of `lpc_predict` (the `zip` truncates the `order + 1` window against
    the `order` coefficients), in wrapping i32 arithmetic. -/
def predSumGo (mean : Int) (buf : List Int) (base : Nat) (coefs : List Int) :
    Nat → Nat → Int → Int
  | 0, _, acc => acc
  | f + 1, j, acc =>
    predSumGo mean buf base coefs f (j + 1)
      (wrapI32 (acc + wrapI32 (wrapI32 (buf.getD (base + j) 0 - mean) * coefs.getD j 0)))

/-- The coefficient-adaptation loop of `lpc_predict` (run when the
    prediction error is nonzero): for `j` in natural order,
    `coefs[j] += signum(d) * signum(err)` with wrapping i16 addition and
    `remaining -= error_sign * ((d * sign) >> quant) * (j + 1)`,
    stopping as soon as `remaining <= 0`. -/
def adaptGo (quant base : Nat) (mean errSign : Int) (buf : List Int) :
    Nat → Nat → List Int → Int → List Int
  | 0, _, coefs, _ => coefs
  | f + 1, j, coefs, remaining =>
    let d := wrapI32 (buf.getD (base + j) 0 - mean)
    let sign := d.sign * errSign
    let coefs := coefs.set j (wrapI16 (coefs.getD j 0 + sign))
    let remaining :=
      wrapI32 (remaining - wrapI32 (wrapI32 (errSign * ashr32 (wrapI32 (d * sign)) quant) * (j + 1)))
    if remaining ≤ 0 then coefs else adaptGo quant base mean errSign buf f (j + 1) coefs remaining

/-- The main loop of `lpc_predict` over `i` in `order + 1 .. buf.len()`:
    predict, round, truncate by `quant` bits, add the residual,
    sign extend, and adapt the coefficients when the residual is
    nonzero.  `1 << (lpc_quant - 1)` is u32-wrapping in the exponent
    (`quant = 0` gives shift 31) followed by release-build shift
    masking, which equals `2 ^ ((quant + 31) % 32)`. -/
def lpcMainGo (bps quant order : Nat) : Nat → Nat → List Int → List Int → List Int × List Int
  | 0, _, buf, coefs => (buf, coefs)
  | f + 1, i, buf, coefs =>
    let mean := buf.getD (i - order - 1) 0
    let base := i - order
    let predicted := predSumGo mean buf base coefs order 0 0
    let rt : Int := wrapI32 (2 ^ ((quant + 31) % 32))
    let predicted := ashr32 (wrapI32 (predicted + rt)) quant
    let perr := buf.getD i 0
    let sample := wrapI32 (wrapI32 (predicted + mean) + perr)
    let buf := buf.set i (signExtend sample bps)
    if perr = 0 then lpcMainGo bps quant order f (i + 1) buf coefs
    else
      let errSign := perr.sign
      let remaining := wrapI32 (errSign * perr)
      let coefs := adaptGo quant base mean errSign buf order 0 coefs remaining
      lpcMainGo bps quant order f (i + 1) buf coefs

/-- `lpc_predict(buf, bps, lpc_coefs, lpc_quant)`: differential warm-up
    over the first `min(order + 1, len)` samples, then the adaptive
    prediction loop.  Returns the final buffer and coefficients. -/
def lpcPredict (buf : List Int) (bps : Nat) (coefs : List Int) (quant : Nat) :
    List Int × List Int :=
  let order := coefs.length
  let buf := diffRunGo bps (min (order + 1) buf.length - 1) 1 buf
  lpcMainGo bps quant order (buf.length - (order + 1)) (order + 1) buf coefs

/-- The per-channel prediction step of `decode_audio_element`
    (dec.rs lines 283-294): mode 15 applies the order-31 differential
    pass; any other nonzero mode is `InvalidData`; then
    `assert!(lpc_order[i] != 31)` runs unconditionally, and
    `lpc_predict` runs with the first `order` coefficients. -/
def predictPhase (mode order : Nat) (coefs : List Int) (quant bps : Nat) (buf : List Int) :
    Except DErr (List Int) :=
  if mode = 15 then
    let buf := lpcPredictOrder31 buf bps
    if order = 31 then .error .panicked
    else .ok (lpcPredict buf bps (coefs.take order) quant).1
  else if mode > 0 then .error .invalidData
  else if order = 31 then .error .panicked
  else .ok (lpcPredict buf bps (coefs.take order) quant).1

/-- One step of `unmix_stereo`:
    `r = u - ((v * mix_res) >> mix_bits); l = r + v`. -/
def unmixGo (mixBits : Nat) (mixRes : Int) : Nat → Nat → List Int → List Int → List Int × List Int
  | 0, _, u, v => (u, v)
  | f + 1, i, u, v =>
    let uu := u.getD i 0
    let vv := v.getD i 0
    let r := wrapI32 (uu - ashr32 (wrapI32 (vv * mixRes)) mixBits)
    let l := wrapI32 (r + vv)
    unmixGo mixBits mixRes f (i + 1) (u.set i l) (v.set i r)

/-- `unmix_stereo(buf, mix_bits, mix_res)` over
    `min(buf[0].len(), buf[1].len())` samples. -/
def unmixStereo (u v : List Int) (mixBits : Nat) (mixRes : Int) : List Int × List Int :=
  unmixGo mixBits mixRes (min u.length v.length) 0 u v

/-- Read channel `j` of the mix-buffer pair at sample `i`. -/
def chGet (u v : List Int) (j i : Nat) : Int :=
  if j = 0 then u.getD i 0 else v.getD i 0

/-- Write channel `j` of the mix-buffer pair at sample `i`. -/
def chSet (u v : List Int) (j i : Nat) (x : Int) : List Int × List Int :=
  if j = 0 then (u.set i x, v) else (u, v.set i x)

/-- Inner loop of `append_extra_bits` over the channels of sample `i`:
    read `sample_shift` extra bits and
    `buf[j][i] = (buf[j][i] << sample_shift) | extra_bits`. -/
def extraBitsRow (shift : Nat) (i : Nat) : Nat → Nat → BitCursor → List Int → List Int →
    Except DErr (BitCursor × List Int × List Int)
  | 0, _, c, u, v => .ok (c, u, v)
  | f + 1, j, c, u, v => do
    let (extra, c) ← rd (c.readU16 shift)
    let x := lorI32 (wrapI32 (chGet u v j i * 2 ^ (shift % 32))) extra
    let (u, v) := chSet u v j i x
    extraBitsRow shift i f (j + 1) c u v

/-- Outer loop of `append_extra_bits` over the samples. -/
def extraBitsAll (shift channels : Nat) : Nat → Nat → BitCursor → List Int → List Int →
    Except DErr (BitCursor × List Int × List Int)
  | 0, _, c, u, v => .ok (c, u, v)
  | f + 1, i, c, u, v => do
    let (c, u, v) ← extraBitsRow shift i channels 0 c u v
    extraBitsAll shift channels f (i + 1) c u v

/-- `append_extra_bits(reader, buf, channels, sample_shift)`. -/
def appendExtraBits (c : BitCursor) (u v : List Int) (channels shift : Nat) :
    Except DErr (BitCursor × List Int × List Int) :=
  let channels := min channels 2
  let ns := min u.length v.length
  extraBitsAll shift channels ns 0 c u v

/-- `Sample::from_decoder`: i16 output truncates (`sample as i16`),
    i32 output left-aligns (`sample << (32 - bits)`). -/
def fromDecoder (sBits : Nat) (sample : Int) (bits : Nat) : Int :=
  if sBits = 16 then wrapI16 sample
  else wrapI32 (sample * 2 ^ ((32 - bits) % 32))

/-- Interleaved output write of one sample row of an audio element:
    `out[i * num_channels + channel_index + j] = from_decoder(...)`. -/
def writeRow (numChannels chanIdx bitDepth sBits : Nat) (u v : List Int) (i : Nat) :
    Nat → Nat → List Int → List Int
  | 0, _, out => out
  | f + 1, j, out =>
    let idx := i * numChannels + chanIdx + j
    writeRow numChannels chanIdx bitDepth sBits u v i f (j + 1)
      (out.set idx (fromDecoder sBits (chGet u v j i) bitDepth))

/-- Interleaved output write of all samples of an audio element. -/
def writeAll (numChannels chanIdx bitDepth sBits channels : Nat) (u v : List Int) :
    Nat → Nat → List Int → List Int
  | 0, _, out => out
  | f + 1, i, out =>
    writeAll numChannels chanIdx bitDepth sBits channels u v f (i + 1)
      (writeRow numChannels chanIdx bitDepth sBits u v i channels 0 out)

/-- Inner loop of the uncompressed path: read `bit_depth` bits per
    channel (`as i32`) and write interleaved output. -/
def uncompRow (bitDepth numChannels chanIdx sBits i : Nat) : Nat → Nat → BitCursor → List Int →
    Except DErr (BitCursor × List Int)
  | 0, _, c, out => .ok (c, out)
  | f + 1, j, c, out => do
    let (vRaw, c) ← rd (c.readU32 bitDepth)
    let idx := i * numChannels + chanIdx + j
    uncompRow bitDepth numChannels chanIdx sBits i f (j + 1) c
      (out.set idx (fromDecoder sBits (toI32 vRaw) bitDepth))

/-- Outer loop of the uncompressed path over the samples. -/
def uncompAll (bitDepth numChannels chanIdx sBits channels : Nat) : Nat → Nat → BitCursor →
    List Int → Except DErr (BitCursor × List Int)
  | 0, _, c, out => .ok (c, out)
  | f + 1, i, c, out => do
    let (c, out) ← uncompRow bitDepth numChannels chanIdx sBits i channels 0 c out
    uncompAll bitDepth numChannels chanIdx sBits channels f (i + 1) c out

/-- Read `order` 16-bit coefficients (`as i16`).  The source stores them
    into `lpc_coefs[i][j]` for `j` in `(0..order).rev()`, so the list of
    coefficients (index 0 first) is the reverse of stream order, which
    is what repeated consing produces. -/
def readCoefsGo : Nat → BitCursor → List Int → Except DErr (List Int × BitCursor)
  | 0, c, acc => .ok (acc, c)
  | f + 1, c, acc => do
    let (x, c) ← rd (c.readU16 16)
    readCoefsGo f c (toI16 x :: acc)

/-- Per-channel LPC parameters of a compressed audio element. -/
structure ChanParams where
  mode : Nat
  quant : Nat
  pbf : Nat
  order : Nat
  coefs : List Int
deriving DecidableEq, Repr

/-- Read the per-channel parameter block: 4-bit mode, 4-bit quant,
    3-bit pb factor, 5-bit order, then the coefficients. -/
def readChanParams (c : BitCursor) : Except DErr (ChanParams × BitCursor) := do
  let (mode, c) ← rd (c.readU8 4)
  let (quant, c) ← rd (c.readU8 4)
  let (pbf, c) ← rd (c.readU8 3)
  let (order, c) ← rd (c.readU8 5)
  let (coefs, c) ← readCoefsGo order c []
  .ok ({ mode := mode, quant := quant, pbf := pbf, order := order, coefs := coefs }, c)

/-- Read the parameter blocks of all element channels, in order. -/
def readAllParams : Nat → BitCursor → List ChanParams → Except DErr (List ChanParams × BitCursor)
  | 0, c, acc => .ok (acc.reverse, c)
  | f + 1, c, acc => do
    let (p, c) ← readChanParams c
    readAllParams f c (p :: acc)

/-- Rice-decompress one channel buffer and run its prediction phase. -/
def processChannel (cfg : StreamInfo) (c : BitCursor) (buf : List Int) (p : ChanParams)
    (chanBits : Nat) : Except DErr (List Int × BitCursor) := do
  let (buf, c) ← riceDecompress cfg c buf chanBits p.pbf
  match predictPhase p.mode p.order p.coefs p.quant chanBits buf with
  | .error e => .error e
  | .ok buf => .ok (buf, c)

/-- The `for i in 0..element_channels` loop of `decode_audio_element`:
    channel 0 works on the first mix buffer, channel 1 on the second. -/
def processChannels (cfg : StreamInfo) (c : BitCursor) (u v : List Int)
    (ps : List ChanParams) (chanBits : Nat) : Except DErr (List Int × List Int × BitCursor) :=
  match ps with
  | [] => .ok (u, v, c)
  | [p] => do
    let (u, c) ← processChannel cfg c u p chanBits
    .ok (u, v, c)
  | p0 :: p1 :: _ => do
    let (u, c) ← processChannel cfg c u p0 chanBits
    let (v, c) ← processChannel cfg c v p1 chanBits
    .ok (u, v, c)

/-- The `num_samples` computation of `decode_audio_element`: read 32
    bits when the partial-frame flag is set (checked against the
    configured frame length), otherwise use the configured frame
    length. -/
def readNumSamples (partFlag : Bool) (frameLength : Nat) (c : BitCursor) :
    Except DErr (Nat × BitCursor) :=
  if partFlag then do
    let (n, c) ← rd (c.readU32 32)
    if n > frameLength then throw .invalidData
    else pure (n, c)
  else pure (frameLength, c)

/-- When bytes are shifted off, remember the cursor position of the
    extra-bits block and skip over it. -/
def saveShiftBuffer (shift ns elemChans : Nat) (c : BitCursor) :
    Except DErr (Option BitCursor × BitCursor) :=
  if shift ≠ 0 then do
    let c2 ← rd (c.skip (shift * ns * elemChans))
    pure (some c, c2)
  else pure (none, c)

/-- When a shift buffer was saved, append the shifted-off bits back onto
    the decoded samples. -/
def applyShiftBuffer (ebr : Option BitCursor) (u v : List Int) (elemChans shift : Nat) :
    Except DErr (List Int × List Int) :=
  match ebr with
  | some e => do
    let (_e2, u, v) ← appendExtraBits e u v elemChans shift
    pure (u, v)
  | none => pure (u, v)

/-- `decode_audio_element`: header fields, the compressed path (mix
    buffers carved out of the decoder scratch, rice decompression, LPC
    prediction, stereo unmix, extra bits, interleaved output) or the
    uncompressed path.  Returns the element's sample count, the new
    scratch contents, the cursor and the output buffer. -/
def decodeAudioElement (cfg : StreamInfo) (scratch : List Int) (c : BitCursor)
    (out : List Int) (chanIdx elemChans sBits : Nat) :
    Except DErr (Nat × List Int × BitCursor × List Int) := do
  let (_eit, c) ← rd (c.readU8 4)
  let (unused, c) ← rd (c.readU16 12)
  if unused ≠ 0 then throw .invalidData
  let (partFlag, c) ← rd c.readBit
  let (ssb, c) ← rd (c.readU8 2)
  if ssb > 2 then throw .invalidData
  let shift := ssb * 8
  let (isUncomp, c) ← rd c.readBit
  let (ns, c) ← readNumSamples partFlag cfg.frameLength c
  if isUncomp = false then do
    let bufU := scratch.take cfg.frameLength
    let bufV := scratch.drop cfg.frameLength
    let u := bufU.take ns
    let v := bufV.take ns
    let chanBits := u8sub (wrap8 (u8sub cfg.bitDepth shift + elemChans)) 1
    if chanBits > 32 then throw .invalidData
    let (mixBits, c) ← rd (c.readU8 8)
    let (mixResRaw, c) ← rd (c.readU8 8)
    let mixRes := toI8 mixResRaw
    let (ps, c) ← readAllParams elemChans c []
    let (ebr, c) ← saveShiftBuffer shift ns elemChans c
    let (u, v, c) ← processChannels cfg c u v ps chanBits
    let (u, v) := if elemChans = 2 ∧ mixRes ≠ 0 then unmixStereo u v mixBits mixRes else (u, v)
    let (u, v) ← applyShiftBuffer ebr u v elemChans shift
    let out := writeAll cfg.numChannels chanIdx cfg.bitDepth sBits elemChans u v ns 0 out
    let scratch := (u ++ bufU.drop ns) ++ (v ++ bufV.drop ns)
    pure (ns, scratch, c, out)
  else do
    if shift ≠ 0 then throw .invalidData
    let (c, out) ← uncompAll cfg.bitDepth cfg.numChannels chanIdx sBits elemChans ns 0 c out
    pure (ns, scratch, c, out)

/-- The element-dispatch loop of `Decoder::decode_packet`: read 3-bit
    tags and handle SCE/LFE/CPE audio elements, unsupported CCE/PCE,
    DSE and FIL skips, and END.  On END, align to a byte boundary,
    require the full channel count, and return the number of interleaved
    samples (`frame_samples * channel_index`) together with the output
    buffer.  Fuel only guards the recursion; every iteration consumes at
    least the 3 tag bits, so `8 * packet.len() + 8` never runs out. -/
def packetLoop (cfg : StreamInfo) (sBits : Nat) :
    Nat → BitCursor → Nat → Option Nat → List Int → List Int → Except DErr (Nat × List Int)
  | 0, _, _, _, _, _ => .error .panicked
  | fuel + 1, c, chanIdx, frameSamples, scratch, out => do
    let (tag, c) ← rd (c.readU8 3)
    if tag = 0 ∨ tag = 3 ∨ tag = 1 then
      let elemChans := if tag = 1 then 2 else 1
      if chanIdx + elemChans > cfg.numChannels then throw .invalidData
      else do
        let (es, scratch, c, out) ← decodeAudioElement cfg scratch c out chanIdx elemChans sBits
        match frameSamples with
        | some fs =>
          if fs ≠ es then throw .invalidData
          else packetLoop cfg sBits fuel c (chanIdx + elemChans) (some fs) scratch out
        | none => packetLoop cfg sBits fuel c (chanIdx + elemChans) (some es) scratch out
    else if tag = 2 ∨ tag = 5 then throw .invalidData
    else if tag = 4 then do
      let (_eit, c) ← rd (c.readU8 4)
      let (alignFlag, c) ← rd c.readBit
      let (sb0, c) ← rd (c.readU8 8)
      let (sb, c) ← if sb0 = 255 then do
          let (ext, c) ← rd (c.readU8 8)
          pure (sb0 + ext, c)
        else pure (sb0, c)
      let c ← if alignFlag then rd c.skipToByte else pure c
      let c ← rd (c.skip (sb * 8))
      packetLoop cfg sBits fuel c chanIdx frameSamples scratch out
    else if tag = 6 then do
      let (sb0, c) ← rd (c.readU8 4)
      let (sb, c) ← if sb0 = 15 then do
          let (ext, c) ← rd (c.readU8 8)
          pure (14 + ext, c)
        else pure (sb0, c)
      let c ← rd (c.skip (sb * 8))
      packetLoop cfg sBits fuel c chanIdx frameSamples scratch out
    else if tag = 7 then do
      let c ← rd c.skipToByte
      if chanIdx ≠ cfg.numChannels then throw .invalidData
      else
        let fs := frameSamples.getD cfg.frameLength
        pure (fs * chanIdx, out)
    else .error .panicked

/-- `Decoder::decode_packet` down to the raw sample count and final
    output buffer: build the cursor (a too-long buffer maps to
    `InvalidData`), check the two caller-contract `assert!`s (modelled
    as panics), then run the element loop with ample fuel. -/
def decodePacketRun (cfg : StreamInfo) (scratch : List Int) (pkt : List Nat)
    (out : List Int) (sBits : Nat) : Except DErr (Nat × List Int) := do
  let c ← match BitCursor.new pkt with
    | .error _ => .error .invalidData
    | .ok c => .ok c
  if out.length < maxSamplesPerPacket cfg then .error .panicked
  else if sBits < cfg.bitDepth then .error .panicked
  else packetLoop cfg sBits (8 * pkt.length + 8) c 0 none scratch out

/-- `Decoder::decode_packet`: the returned slice is the prefix of the
    output buffer holding `frame_samples * num_channels` samples. -/
def decodePacket (cfg : StreamInfo) (scratch : List Int) (pkt : List Nat)
    (out : List Int) (sBits : Nat) : Except DErr (List Int) :=
  (decodePacketRun cfg scratch pkt out sBits).map (fun p => p.2.take p.1)

/-! Spec-side definitions: these follow the wording of the specification
    and of the claims, to be compared with the source-derived
    definitions above. -/

/-- Spec 4.2: strip an optional 12-byte legacy `frma` atom when bytes
    4..8 spell `frma`, then an optional 12-byte `alac` atom when bytes
    4..8 of the remainder spell `alac`. -/
def stripAtoms (cookie : List Nat) : List Nat :=
  let c1 := if atomTag cookie = frmaTag then cookie.drop 12 else cookie
  if atomTag c1 = alacTag then c1.drop 12 else c1

/-- Spec 4.2: after stripping, require at least 24 bytes, then parse the
    fixed big-endian field layout of section 6 and validate. -/
def parseCookieFields (c2 : List Nat) : Except DErr StreamInfo :=
  if c2.length < 24 then .error .invalidData
  else
    StreamInfo.validate
      { frameLength := readBeU32 c2 0
        compatibleVersion := c2.getD 4 0 % 256
        bitDepth := c2.getD 5 0 % 256
        pb := c2.getD 6 0 % 256
        mb := c2.getD 7 0 % 256
        kb := c2.getD 8 0 % 256
        numChannels := c2.getD 9 0 % 256
        maxRun := readBeU16 c2 10
        maxFrameBytes := readBeU32 c2 12
        avgBitRate := readBeU32 c2 16
        sampleRate := readBeU32 c2 20 }

/-- Claim C2, spec 4.4.1, stated over the cursor's read operations:
    read a unary prefix `q` of at most 9 one-bits; if `q = 9` return the
    next `bps` bits; if `k = 1` return `q`; otherwise read `k - 1` bits
    as `base`, return `q * m` when `base` is zero (reading no extra
    bit), and otherwise read one extra bit `e` and return
    `q * m + (base << 1) + e - 1` (u32 arithmetic). -/
def riceSymbolSpec (c : BitCursor) (m k bps : Nat) : Except DErr (Nat × BitCursor) := do
  let (q, c) ← riceUnaryGo 9 0 c
  if q = 9 then do
    let (v, c) ← rd (c.readU32 bps)
    pure (v, c)
  else if k = 1 then pure (q, c)
  else do
    let (base, c) ← rd (c.readU32 (k - 1))
    if base = 0 then pure (wrap32 (q * m), c)
    else do
      let (e, c) ← rd c.readBit
      let eN : Nat := if e then 1 else 0
      pure (wrap32 (wrap32 (q * m) + u32sub (wrap32 (wrap32 (base * 2) + eN)) 1), c)

/-- Claim C5, spec 4.4.2 step 6: decode a run length with escape width
    16; a positive run must be strictly less than `num_samples - i`
    (else `InvalidData`); zero-fill `buf[i+1 .. i+1+run]` and advance
    `i` by `run`; set the sign modifier when the run is at most 0xFFFF;
    reset the history to zero. -/
def zeroRunSpec (kMax : Nat) (c : BitCursor) (buf : List Int) (i h : Nat) :
    Except DErr (BitCursor × List Int × Nat × Nat × Nat) := do
  let k := kRunOf h
  let m := (shl32 1 k - 1) &&& (shl32 1 kMax - 1)
  let (run, c) ← decodeRiceSymbol c m k 16
  if 0 < run ∧ ¬run < buf.length - i then throw .invalidData
  let buf := if 0 < run then zeroFill buf (i + 1) run else buf
  let i := if 0 < run then i + run else i
  let sm := if run ≤ 65535 then 1 else 0
  pure (c, buf, i, sm, 0)

/-- `riceStep` with its block-of-zeros branch replaced by the
    claim-worded `zeroRunSpec`. -/
def riceStepSpecRun (mult kMax bps : Nat) (st : RiceSt) : Except DErr (RiceSt × (Nat × Nat)) := do
  let k := min (log2u (shr32 st.h 9 + 3)) kMax
  let m := shl32 1 k - 1
  let (val0, c) ← decodeRiceSymbol st.c m k bps
  let val := wrap32 (val0 + st.sm)
  let buf := st.buf.set st.i (zigzag val)
  let h2 := riceHistoryUpdate mult st.h val
  let upd := (st.h, val)
  if h2 < 128 ∧ st.i + 1 < buf.length then do
    let (c, buf, i, sm, h3) ← zeroRunSpec kMax c buf st.i h2
    .ok ({ c := c, buf := buf, h := h3, sm := sm, i := i + 1 }, upd)
  else
    .ok ({ c := c, buf := buf, h := h2, sm := 0, i := st.i + 1 }, upd)

/-- Claim C4's no-wrap property at one history update: when the
    non-clamping branch runs (`val <= 0xFFFF`), neither the subtrahend
    product `h * mult` nor the addend `h + val * mult` exceeds u32
    range. -/
def noWrapAt (mult : Nat) (p : Nat × Nat) : Prop :=
  p.2 ≤ 65535 → p.1 * mult < M32 ∧ p.1 + p.2 * mult < M32

instance (mult : Nat) (p : Nat × Nat) : Decidable (noWrapAt mult p) := by
  unfold noWrapAt; infer_instance

/-- Claim C6 as stated: the adaptation loop with a *saturating* i16
    coefficient update (`coefs[j] += sign` clamped at the i16 bounds),
    otherwise exactly the loop of `lpc_predict`. -/
def adaptSatGo (quant base : Nat) (mean s : Int) (buf : List Int) :
    Nat → Nat → List Int → Int → List Int
  | 0, _, coefs, _ => coefs
  | f + 1, j, coefs, remaining =>
    let d := wrapI32 (buf.getD (base + j) 0 - mean)
    let sign := d.sign * s
    let coefs := coefs.set j (satI16 (coefs.getD j 0 + sign))
    let remaining := wrapI32 (remaining - s * ashr32 (wrapI32 (d * sign)) quant * (j + 1))
    if remaining ≤ 0 then coefs else adaptSatGo quant base mean s buf f (j + 1) coefs remaining

/-- The main LPC loop with the saturating adaptation of claim C6. -/
def lpcMainSatGo (bps quant order : Nat) : Nat → Nat → List Int → List Int → List Int × List Int
  | 0, _, buf, coefs => (buf, coefs)
  | f + 1, i, buf, coefs =>
    let mean := buf.getD (i - order - 1) 0
    let base := i - order
    let predicted := predSumGo mean buf base coefs order 0 0
    let rt : Int := wrapI32 (2 ^ ((quant + 31) % 32))
    let predicted := ashr32 (wrapI32 (predicted + rt)) quant
    let perr := buf.getD i 0
    let sample := wrapI32 (wrapI32 (predicted + mean) + perr)
    let buf := buf.set i (signExtend sample bps)
    if perr = 0 then lpcMainSatGo bps quant order f (i + 1) buf coefs
    else
      let s := perr.sign
      let remaining := wrapI32 (s * perr)
      let coefs := adaptSatGo quant base mean s buf order 0 coefs remaining
      lpcMainSatGo bps quant order f (i + 1) buf coefs

/-- `lpc_predict` as claim C6 words it, with saturating coefficient
    updates. -/
def lpcPredictSat (buf : List Int) (bps : Nat) (coefs : List Int) (quant : Nat) :
    List Int × List Int :=
  let order := coefs.length
  let buf := diffRunGo bps (min (order + 1) buf.length - 1) 1 buf
  lpcMainSatGo bps quant order (buf.length - (order + 1)) (order + 1) buf coefs

/-- The amended claim C6 adaptation: identical wording but the i16
    coefficient update wraps (two's complement), as `+=` on `i16` does
    in release builds.  The decrement
    `remaining -= s * ((d * sign) >> quant) * (j + 1)` is written as one
    wrapped product, as in the claim. -/
def adaptAmendGo (quant base : Nat) (mean s : Int) (buf : List Int) :
    Nat → Nat → List Int → Int → List Int
  | 0, _, coefs, _ => coefs
  | f + 1, j, coefs, remaining =>
    let d := wrapI32 (buf.getD (base + j) 0 - mean)
    let sign := d.sign * s
    let coefs := coefs.set j (wrapI16 (coefs.getD j 0 + sign))
    let remaining := wrapI32 (remaining - s * ashr32 (wrapI32 (d * sign)) quant * (j + 1))
    if remaining ≤ 0 then coefs else adaptAmendGo quant base mean s buf f (j + 1) coefs remaining

/-- The main LPC loop with the amended (wrapping) adaptation. -/
def lpcMainAmendGo (bps quant order : Nat) : Nat → Nat → List Int → List Int → List Int × List Int
  | 0, _, buf, coefs => (buf, coefs)
  | f + 1, i, buf, coefs =>
    let mean := buf.getD (i - order - 1) 0
    let base := i - order
    let predicted := predSumGo mean buf base coefs order 0 0
    let rt : Int := wrapI32 (2 ^ ((quant + 31) % 32))
    let predicted := ashr32 (wrapI32 (predicted + rt)) quant
    let perr := buf.getD i 0
    let sample := wrapI32 (wrapI32 (predicted + mean) + perr)
    let buf := buf.set i (signExtend sample bps)
    if perr = 0 then lpcMainAmendGo bps quant order f (i + 1) buf coefs
    else
      let s := perr.sign
      let remaining := wrapI32 (s * perr)
      let coefs := adaptAmendGo quant base mean s buf order 0 coefs remaining
      lpcMainAmendGo bps quant order f (i + 1) buf coefs

/-- `lpc_predict` as amended claim C6 words it (wrapping i16 update). -/
def lpcPredictAmend (buf : List Int) (bps : Nat) (coefs : List Int) (quant : Nat) :
    List Int × List Int :=
  let order := coefs.length
  let buf := diffRunGo bps (min (order + 1) buf.length - 1) 1 buf
  lpcMainAmendGo bps quant order (buf.length - (order + 1)) (order + 1) buf coefs

/-- Claim C3 as stated: mode 15 applies (only) the order-31 differential
    pass; any other positive mode is `InvalidData`; order 31 is
    disallowed outside mode 15; otherwise LPC prediction runs. -/
def predictPhaseClaim (mode order : Nat) (coefs : List Int) (quant bps : Nat)
    (buf : List Int) : Except DErr (List Int) :=
  if mode = 15 then .ok (lpcPredictOrder31 buf bps)
  else if mode > 0 then .error .invalidData
  else if order = 31 then .error .invalidData
  else .ok (lpcPredict buf bps (coefs.take order) quant).1

/-- The amended claim C3: mode 15 applies the order-31 pass and then LPC
    prediction also runs; any other positive mode is `InvalidData`; an
    order of 31 aborts via the unconditional `assert!` (a panic) in
    every mode that reaches it. -/
def predictPhaseAmended (mode order : Nat) (coefs : List Int) (quant bps : Nat)
    (buf : List Int) : Except DErr (List Int) :=
  if 0 < mode ∧ mode ≠ 15 then .error .invalidData
  else if order = 31 then .error .panicked
  else
    let buf := if mode = 15 then lpcPredictOrder31 buf bps else buf
    .ok (lpcPredict buf bps (coefs.take order) quant).1

/-- The dispatcher as claim C7 words it: identical element walk, but at
    END it returns the prefix covering `frame_samples * num_channels`
    samples, where `frame_samples` was set by the first audio element
    (no element at all is an error). -/
def specPacketWalk (cfg : StreamInfo) (sBits : Nat) :
    Nat → BitCursor → Nat → Option Nat → List Int → List Int → Except DErr (Nat × List Int)
  | 0, _, _, _, _, _ => .error .panicked
  | fuel + 1, c, chanIdx, frameSamples, scratch, out => do
    let (tag, c) ← rd (c.readU8 3)
    if tag = 0 ∨ tag = 3 ∨ tag = 1 then
      let elemChans := if tag = 1 then 2 else 1
      if chanIdx + elemChans > cfg.numChannels then throw .invalidData
      else do
        let (es, scratch, c, out) ← decodeAudioElement cfg scratch c out chanIdx elemChans sBits
        match frameSamples with
        | some fs =>
          if fs ≠ es then throw .invalidData
          else specPacketWalk cfg sBits fuel c (chanIdx + elemChans) (some fs) scratch out
        | none => specPacketWalk cfg sBits fuel c (chanIdx + elemChans) (some es) scratch out
    else if tag = 2 ∨ tag = 5 then throw .invalidData
    else if tag = 4 then do
      let (_eit, c) ← rd (c.readU8 4)
      let (alignFlag, c) ← rd c.readBit
      let (sb0, c) ← rd (c.readU8 8)
      let (sb, c) ← if sb0 = 255 then do
          let (ext, c) ← rd (c.readU8 8)
          pure (sb0 + ext, c)
        else pure (sb0, c)
      let c ← if alignFlag then rd c.skipToByte else pure c
      let c ← rd (c.skip (sb * 8))
      specPacketWalk cfg sBits fuel c chanIdx frameSamples scratch out
    else if tag = 6 then do
      let (sb0, c) ← rd (c.readU8 4)
      let (sb, c) ← if sb0 = 15 then do
          let (ext, c) ← rd (c.readU8 8)
          pure (14 + ext, c)
        else pure (sb0, c)
      let c ← rd (c.skip (sb * 8))
      specPacketWalk cfg sBits fuel c chanIdx frameSamples scratch out
    else if tag = 7 then do
      let c ← rd c.skipToByte
      if chanIdx ≠ cfg.numChannels then throw .invalidData
      else
        match frameSamples with
        | some fs => pure (fs * cfg.numChannels, out)
        | none => throw .invalidData
    else .error .panicked

/-- `decode_packet` with the claim-worded dispatcher. -/
def specDecodePacket (cfg : StreamInfo) (scratch : List Int) (pkt : List Nat)
    (out : List Int) (sBits : Nat) : Except DErr (List Int) :=
  (do
    let c ← match BitCursor.new pkt with
      | .error _ => .error .invalidData
      | .ok c => .ok c
    if out.length < maxSamplesPerPacket cfg then .error .panicked
    else if sBits < cfg.bitDepth then .error .panicked
    else specPacketWalk cfg sBits (8 * pkt.length + 8) c 0 none scratch out :
    Except DErr (Nat × List Int)).map (fun p => p.2.take p.1)

/-! Concrete inputs used by counterexamples, bug demonstrations and
    witnesses. -/

/-- A cursor freshly built over the given bytes (the `ok` result of
    `BitCursor::new` for any realistic length). -/
def cursorOf (bytes : List Nat) : BitCursor :=
  BitCursor.advance { buf := bytes, current := 0, currentLen := 0, currentPos := 0 }

/-- Pack an MSB-first bit list into bytes, zero-padding the tail. -/
def bitsToBytesGo : List Bool → Nat → Nat → List Nat
  | [], acc, k => if k = 0 then [] else [acc * 2 ^ (8 - k)]
  | b :: bs, acc, k =>
    let acc2 := acc * 2 + (if b then 1 else 0)
    if k = 7 then acc2 :: bitsToBytesGo bs 0 0 else bitsToBytesGo bs acc2 (k + 1)

/-- Pack an MSB-first bit list into bytes. -/
def bitsToBytes (l : List Bool) : List Nat := bitsToBytesGo l 0 0

/-- The canonical 24-byte cookie of spec section 8, scenario 1. -/
def canonicalCookie : List Nat :=
  [0, 0, 16, 0, 0, 16, 40, 10, 14, 2, 0, 255, 0, 0, 0, 0, 0, 0, 0, 0, 0, 0, 172, 68]

/-- A validated one-channel, 16-bit, frame-length-1 stream
    configuration (the parse of `c1Cookie`). -/
def c1Cfg : StreamInfo :=
  { frameLength := 1, compatibleVersion := 0, bitDepth := 16, pb := 40, mb := 10, kb := 14
    numChannels := 1, maxRun := 255, maxFrameBytes := 0, avgBitRate := 0, sampleRate := 44100 }

/-- The cookie bytes describing `c1Cfg`. -/
def c1Cookie : List Nat :=
  [0, 0, 0, 1, 0, 16, 40, 10, 14, 1, 0, 255, 0, 0, 0, 0, 0, 0, 0, 0, 0, 0, 172, 68]

/-- The bits of a malicious packet: one SCE element, compressed, with
    `lpc_mode = 15` and `lpc_order = 31`, 31 zero coefficients and a
    single zero rice symbol.  Decoding it reaches the unconditional
    `assert!(lpc_order[i] != 31)` and panics. -/
def c1PacketBits : List Bool :=
  List.replicate 39 false ++ List.replicate 4 true ++ [false, false, false, true] ++
    List.replicate 3 false ++ List.replicate 5 true ++ List.replicate 497 false

/-- The malicious packet bytes. -/
def c1Packet : List Nat := bitsToBytes c1PacketBits

/-- A stream configuration with the largest rice history multiplier
    base (`pb = 255`) and initial history (`mb = 255`); all fields are
    byte-valued, so any such cookie parses. -/
def c4Cfg : StreamInfo :=
  { frameLength := 2, compatibleVersion := 0, bitDepth := 16, pb := 255, mb := 255, kb := 14
    numChannels := 1, maxRun := 255, maxFrameBytes := 0, avgBitRate := 0, sampleRate := 44100 }

/-- A rice stream of two symbols: the escape-coded value 0xFFFF
    (9 unary ones, then 16 value bits) followed by the value 0
    (a zero unary bit and 13 zero remainder bits). -/
def c4Stream : List Nat := [255, 255, 255, 128, 0]

/-- The same frame-length-1 mono configuration for the dispatcher
    witness. -/
def c7Cfg : StreamInfo :=
  { frameLength := 1, compatibleVersion := 0, bitDepth := 16, pb := 40, mb := 10, kb := 14
    numChannels := 1, maxRun := 255, maxFrameBytes := 0, avgBitRate := 0, sampleRate := 44100 }

/-- An uncompressed mono packet holding the single sample 1, followed by
    an END tag. -/
def c7PacketBits : List Bool :=
  List.replicate 22 false ++ [true] ++ List.replicate 15 false ++ [true] ++
    [true, true, true] ++ List.replicate 6 false

/-- The packet bytes of `c7PacketBits`. -/
def c7Packet : List Nat := bitsToBytes c7PacketBits

/-- Relational lifting of a result relation to `Except` values: errors
    must match exactly, successes are related by `R` (used to relate two
    decoder runs that differ only in scratch-buffer contents). -/
def ERel {α β : Type} (R : α → β → Prop) : Except DErr α → Except DErr β → Prop
  | .error e1, .error e2 => e1 = e2
  | .ok a, .ok b => R a b
  | _, _ => False

/-! Theorems.  Each claim of the specification review is settled by one
    named theorem (plus a witness or counterexample where required). -/

/-- Claim C8: for every well-formed `BitCursor` state and every bit
    count `N` of a read request (at most the asserted width 32), the
    read fails with `NotEnoughData` exactly when fewer than `N` bits
    remain, the cursor is unchanged on failure, and a successful read
    advances the position by exactly `N` bits (the remaining bit count
    drops by `N`). -/
theorem bitcursor_read_contract (c : BitCursor) (bits : Nat) (hwf : c.WF) (hb : bits ≤ 32) :
    ((c.readU32St bits).1 = .error DErr.notEnoughData ↔ bitsRemaining c < bits) ∧
    ((∃ e, (c.readU32St bits).1 = .error e) → (c.readU32St bits).2 = c) ∧
    (∀ v, (c.readU32St bits).1 = .ok v →
      bitsRemaining (c.readU32St bits).2 = bitsRemaining c - bits) := by
  obtain ⟨hpos, hlen⟩ := hwf
  have h32 : ¬32 < bits := by omega
  by_cases hen : bits ≤ bitsRemaining c
  · have hrem : ¬bitsRemaining c < bits := by omega
    have henr : bits ≤ 8 * c.buf.length + (c.currentLen - c.currentPos) := hen
    by_cases hcl : c.currentLen - c.currentPos ≤ bits
    · simp only [BitCursor.readU32St, BitCursor.readU32, if_neg h32, if_pos hen, if_pos hcl]
      refine ⟨by simp [hrem], by simp, ?_⟩
      intro v _
      simp only [bitsRemaining, BitCursor.advance, List.length_drop]
      simp only [bitsRemaining] at hen
      omega
    · simp only [BitCursor.readU32St, BitCursor.readU32, if_neg h32, if_pos hen, if_neg hcl]
      refine ⟨by simp [hrem], by simp, ?_⟩
      intro v _
      simp only [bitsRemaining]
      omega
  · have hrem : bitsRemaining c < bits := by omega
    simp only [BitCursor.readU32St, BitCursor.readU32, if_neg h32, if_neg hen]
    refine ⟨by simp [hrem], ?_, by simp⟩
    intro _
    trivial

/-- Witness for claim C8 at a concrete cursor: a fresh cursor over two
    bytes is well formed; a five-bit read succeeds and leaves eleven of
    the sixteen bits, and a seventeen-bit read fails with
    `NotEnoughData` leaving the cursor unchanged. -/
theorem bitcursor_read_contract_witness :
    (¬((cursorOf [171, 205]).readU32St 5).1 = .error DErr.notEnoughData ∧
      bitsRemaining ((cursorOf [171, 205]).readU32St 5).2 = 11) ∧
    (((cursorOf [171, 205]).readU32St 17).1 = .error DErr.notEnoughData ∧
      ((cursorOf [171, 205]).readU32St 17).2 = cursorOf [171, 205]) := by
  have hwf : (cursorOf [171, 205]).WF := by constructor <;> decide
  have h5 := bitcursor_read_contract (cursorOf [171, 205]) 5 hwf (by decide)
  have h17 := bitcursor_read_contract (cursorOf [171, 205]) 17 hwf (by decide)
  refine ⟨⟨?_, ?_⟩, ?_, ?_⟩
  · intro h
    have := h5.1.mp h
    revert this
    decide
  · have hok : ((cursorOf [171, 205]).readU32St 5).1 = .ok 21 := by decide
    have hr := h5.2.2 21 hok
    rw [hr]
    decide
  · exact h17.1.mpr (by decide)
  · exact h17.2.1 ⟨DErr.notEnoughData, h17.1.mpr (by decide)⟩

/-- Claim C9: cookie parsing strips an optional `frma` atom and then an
    optional `alac` atom (12 bytes each, keyed on bytes 4..8), fails
    with `InvalidData` whenever fewer than 24 bytes remain after
    stripping, and the canonical 24-byte cookie parses to the declared
    field values. -/
theorem cookie_parse_spec :
    (∀ cookie : List Nat, (stripAtoms cookie).length < 24 →
      StreamInfo.fromCookie cookie = .error .invalidData) ∧
    (∀ cookie : List Nat, 24 ≤ cookie.length →
      StreamInfo.fromCookie cookie = parseCookieFields (stripAtoms cookie)) ∧
    StreamInfo.fromCookie canonicalCookie =
      .ok { frameLength := 4096, compatibleVersion := 0, bitDepth := 16, pb := 40, mb := 10
            kb := 14, numChannels := 2, maxRun := 255, maxFrameBytes := 0, avgBitRate := 0
            sampleRate := 44100 } := by
  have hsplit : ∀ cookie : List Nat, 24 ≤ cookie.length →
      StreamInfo.fromCookie cookie = parseCookieFields (stripAtoms cookie) := by
    intro cookie h24
    simp only [StreamInfo.fromCookie, stripAtoms, parseCookieFields]
    rw [if_neg (by omega)]
  refine ⟨?_, hsplit, by decide⟩
  intro cookie hshort
  by_cases h24 : cookie.length < 24
  · simp only [StreamInfo.fromCookie]
    rw [if_pos h24]
  · rw [hsplit cookie (by omega)]
    simp only [parseCookieFields]
    rw [if_pos hshort]

/-- Witness for claim C9: a twelve-byte cookie strips to fewer than 24
    bytes and is rejected, instantiating the stripping clause of the
    theorem; the canonical-cookie clause is itself a closed evaluation. -/
theorem cookie_parse_spec_witness :
    (stripAtoms [0, 0, 0, 0, 0, 0, 0, 0, 0, 0, 0, 0]).length < 24 ∧
    StreamInfo.fromCookie [0, 0, 0, 0, 0, 0, 0, 0, 0, 0, 0, 0] = .error .invalidData := by
  refine ⟨by decide, ?_⟩
  exact cookie_parse_spec.1 [0, 0, 0, 0, 0, 0, 0, 0, 0, 0, 0, 0] (by decide)

/-- Helper: wrapping the left addend does not change a wrapped sum. -/
theorem wrap32_add_left (a b : Nat) : wrap32 (wrap32 a + b) = wrap32 (a + b) := by
  simp [wrap32, Nat.mod_add_mod]

/-- Helper: wrapping is idempotent. -/
theorem wrap32_wrap32 (a : Nat) : wrap32 (wrap32 a) = wrap32 a := by
  simp [wrap32, M32]

/-- Helper: the usize expression `k - 1` for a u8-ranged `k >= 1`. -/
theorem u64sub_one (k : Nat) (hk : 1 ≤ k) (hk2 : k ≤ 255) : u64sub k 1 = k - 1 := by
  have h1 : k % M64 = k := Nat.mod_eq_of_lt (by simp [M64]; omega)
  have h2 : (1 : Nat) % M64 = 1 := by decide
  simp only [u64sub, h1, h2]
  have h3 : k + M64 - 1 = (k - 1) + M64 := by omega
  rw [h3, Nat.add_mod_right]
  exact Nat.mod_eq_of_lt (by simp [M64]; omega)

/-- Helper: bind of an `ok` value in the `Except` monad. -/
theorem exbind_ok {α β : Type} (a : α) (f : α → Except DErr β) :
    (Except.ok a >>= f) = f a := rfl

/-- Helper: bind of an `error` in the `Except` monad. -/
theorem exbind_err {α β : Type} (e : DErr) (f : α → Except DErr β) :
    ((Except.error e : Except DErr α) >>= f) = .error e := rfl

/-- Helper: bind of a `pure` value in the `Except` monad. -/
theorem expure_bind {α β : Type} (a : α) (f : α → Except DErr β) :
    ((pure a : Except DErr α) >>= f) = f a := rfl

/-- Helper: pointwise-equal continuations give equal binds. -/
theorem exbind_congr {α β : Type} {x : Except DErr α} {f g : α → Except DErr β}
    (h : ∀ a, f a = g a) : x >>= f = x >>= g := by
  cases x with
  | error e => rfl
  | ok a =>
    rw [exbind_ok, exbind_ok]
    exact h a

/-- Helper: associativity of bind in the `Except` monad. -/
theorem exbind_assoc {α β γ : Type} (x : Except DErr α) (f : α → Except DErr β)
    (g : β → Except DErr γ) : (x >>= f) >>= g = x >>= fun a => f a >>= g := by
  cases x <;> rfl

/-- Claim C2: the rice symbol decoder reads a unary prefix of at most 9
    one-bits; at the cap it returns a `bps`-bit binary read; `k = 1`
    yields the prefix itself; otherwise a `k - 1`-bit base is read,
    `q * m` is returned without an extra bit when the base is zero, and
    `q * m + (base << 1) + e - 1` after one extra bit `e` otherwise
    (`k` is the decoder's u8 rice parameter, and `k >= 1` as the claim
    assumes). -/
theorem rice_symbol_spec (c : BitCursor) (m k bps : Nat) (hk : 1 ≤ k) (hk2 : k ≤ 255) :
    decodeRiceSymbol c m k bps = riceSymbolSpec c m k bps := by
  simp only [decodeRiceSymbol, riceSymbolSpec]
  refine exbind_congr ?_
  intro p
  obtain ⟨q, c1⟩ := p
  dsimp only
  by_cases h9 : q = 9
  · simp only [if_pos h9]
  · simp only [if_neg h9]
    by_cases hk1 : k = 1
    · simp only [if_pos hk1]
    · simp only [if_neg hk1]
      rw [u64sub_one k hk hk2]
      refine exbind_congr ?_
      intro p2
      obtain ⟨r, c2⟩ := p2
      dsimp only
      by_cases hr0 : r > 0
      · have hrne : ¬r = 0 := by omega
        simp only [if_pos hr0, if_neg hrne]
        refine exbind_congr ?_
        intro p3
        obtain ⟨e, c3⟩ := p3
        dsimp only
        rw [expure_bind]
      · have hr0e : r = 0 := by omega
        subst hr0e
        rw [if_neg hr0, if_pos (show (0 : Nat) = 0 from rfl), expure_bind]
        dsimp only
        rw [Nat.add_zero, wrap32_wrap32]

/-- Witness for claim C2 at a concrete cursor: with `k = 3`, `m = 7`,
    the bits `10110...` decode as `q = 1`, `base = 3`, extra bit 0,
    giving the symbol `1 * 7 + (3 << 1) + 0 - 1 = 12`, identically in
    the source decoder and the claim-worded one. -/
theorem rice_symbol_spec_witness :
    decodeRiceSymbol (cursorOf [176]) 7 3 16 = riceSymbolSpec (cursorOf [176]) 7 3 16 ∧
    (decodeRiceSymbol (cursorOf [176]) 7 3 16).map (fun p => p.1) = .ok 12 := by
  exact ⟨rice_symbol_spec (cursorOf [176]) 7 3 16 (by decide) (by decide), by decide⟩

/-- Counterexample to claim C3 as stated: on a mode-15 channel the code
    applies the order-31 differential pass and then *also* runs LPC
    prediction with the stored coefficients, so the claim's reading
    (mode 15 applies only the order-31 mode) is false: with one
    coefficient `[1]` and buffer `[1, 1, 1]` the code produces
    `[1, 3, 5]` while the claim-worded phase produces `[1, 2, 3]`. -/
theorem claimC3_counterexample :
    predictPhase 15 1 [1] 1 32 [1, 1, 1] = .ok [1, 3, 5] ∧
    predictPhaseClaim 15 1 [1] 1 32 [1, 1, 1] = .ok [1, 2, 3] ∧
    ¬predictPhase 15 1 [1] 1 32 [1, 1, 1] = predictPhaseClaim 15 1 [1] 1 32 [1, 1, 1] := by
  refine ⟨by decide, by decide, by decide⟩

/-- Amended claim C3: if `lpc_mode[i] = 15` the order-31 differential
    pass is applied and then LPC prediction with the stored coefficients
    and `lpc_quant[i]` also runs; any other positive mode fails with
    `InvalidData`; `lpc_order[i] = 31` triggers the unconditional
    assertion (a panic) in every mode that reaches it; otherwise LPC
    prediction runs as stated. -/
theorem predict_phase_amended (mode order : Nat) (coefs : List Int) (quant bps : Nat)
    (buf : List Int) :
    predictPhase mode order coefs quant bps buf =
      predictPhaseAmended mode order coefs quant bps buf := by
  unfold predictPhase predictPhaseAmended
  by_cases h15 : mode = 15
  · subst h15
    simp
  · by_cases h0 : mode > 0
    · simp [h15, h0]
    · have hm0 : mode = 0 := by omega
      subst hm0
      simp

/-- Helper: congruence for `wrapI32` via residues modulo `2^32`. -/
theorem wrapI32_congr {x y : Int} (h : x % (M32 : Int) = y % (M32 : Int)) :
    wrapI32 x = wrapI32 y := by
  unfold wrapI32
  rw [Int.add_emod, h, ← Int.add_emod]

/-- Helper: `wrapI32` preserves the residue modulo `2^32`. -/
theorem wrapI32_emod (x : Int) : wrapI32 x % (M32 : Int) = x % (M32 : Int) := by
  unfold wrapI32
  rw [Int.sub_emod, Int.emod_emod_of_dvd _ dvd_rfl, ← Int.sub_emod, add_sub_cancel_right]

/-- Helper: an inner wrap in a product can be dropped under a wrap. -/
theorem wrapI32_mul_left (x y : Int) : wrapI32 (wrapI32 x * y) = wrapI32 (x * y) := by
  refine wrapI32_congr ?_
  rw [Int.mul_emod, wrapI32_emod, ← Int.mul_emod]

/-- Helper: an inner wrap in a subtrahend can be dropped under a wrap. -/
theorem wrapI32_sub_right (x y : Int) : wrapI32 (x - wrapI32 y) = wrapI32 (x - y) := by
  refine wrapI32_congr ?_
  rw [Int.sub_emod, wrapI32_emod, ← Int.sub_emod]

/-- Helper: the source's adaptation decrement (inner wraps at every i32
    operation) equals the claim's single-wrap formulation, step by
    step, so the two adaptation loops agree. -/
theorem adaptGo_eq_amend (quant base : Nat) (mean s : Int) (buf : List Int) :
    ∀ (fuel j : Nat) (coefs : List Int) (remaining : Int),
      adaptGo quant base mean s buf fuel j coefs remaining =
        adaptAmendGo quant base mean s buf fuel j coefs remaining := by
  have key : ∀ (rem kk jj : Int), wrapI32 (rem - wrapI32 (wrapI32 kk * jj)) =
      wrapI32 (rem - kk * jj) := by
    intro rem kk jj
    rw [wrapI32_mul_left, wrapI32_sub_right]
  intro fuel
  induction fuel with
  | zero => intro j coefs remaining; rfl
  | succ f ih =>
    intro j coefs remaining
    simp only [adaptGo, adaptAmendGo]
    rw [key]
    split
    · rfl
    · exact ih (j + 1) _ _

/-- Helper: the main LPC loops with source-style and amended-claim
    adaptation agree. -/
theorem lpcMainGo_eq_amend (bps quant order : Nat) :
    ∀ (fuel i : Nat) (buf coefs : List Int),
      lpcMainGo bps quant order fuel i buf coefs =
        lpcMainAmendGo bps quant order fuel i buf coefs := by
  intro fuel
  induction fuel with
  | zero => intro i buf coefs; rfl
  | succ f ih =>
    intro i buf coefs
    simp only [lpcMainGo, lpcMainAmendGo]
    rw [adaptGo_eq_amend]
    split
    · exact ih (i + 1) _ _
    · exact ih (i + 1) _ _

/-- Counterexample to claim C6 as stated: the coefficient update
    `lpc_coefs[j] += sign` is a plain (wrapping) i16 addition, not a
    saturating one.  With `coefs = [32767]` and residuals `[0, 1, 1]`
    the code wraps the coefficient to `-32768`, while the claimed
    saturating update would clamp it at `32767`. -/
theorem claimC6_counterexample :
    lpcPredict [0, 1, 1] 32 [32767] 1 = ([0, 1, 16385], [-32768]) ∧
    lpcPredictSat [0, 1, 1] 32 [32767] 1 = ([0, 1, 16385], [32767]) ∧
    ¬lpcPredict [0, 1, 1] 32 [32767] 1 = lpcPredictSat [0, 1, 1] 32 [32767] 1 := by
  refine ⟨by decide, by decide, by decide⟩

/-- Amended claim C6: in `lpc_predict`, whenever the residual is
    nonzero, coefficients are adapted in natural order `j = 0..order`;
    with `s = signum(err)` and `d = buf[i - order + j] - mean`,
    `coefs[j]` is incremented by `signum(d) * s` with *wrapping* i16
    addition, the remaining error decreases by
    `s * ((d * sign) >> quant) * (j + 1)`, and the loop stops as soon as
    the remaining error is at most zero. -/
theorem lpc_adapt_amended (buf : List Int) (bps : Nat) (coefs : List Int) (quant : Nat) :
    lpcPredict buf bps coefs quant = lpcPredictAmend buf bps coefs quant := by
  unfold lpcPredict lpcPredictAmend
  rw [lpcMainGo_eq_amend]

/-- Helper: the inline block-of-zeros branch equals its claim-worded
    counterpart. -/
theorem zeroRunPhase_eq_spec (kMax : Nat) (c : BitCursor) (buf : List Int) (i h : Nat) :
    zeroRunPhase kMax c buf i h = zeroRunSpec kMax c buf i h := by
  unfold zeroRunPhase zeroRunSpec
  refine exbind_congr ?_
  intro p
  obtain ⟨run, c2⟩ := p
  dsimp only
  by_cases hr : run > 0
  · by_cases hlen : run ≥ buf.length - i
    · have hcond : 0 < run ∧ ¬run < buf.length - i := ⟨hr, by omega⟩
      simp only [if_pos hr, if_pos hlen, if_pos hcond]
      rfl
    · have hcond : ¬(0 < run ∧ ¬run < buf.length - i) := by
        intro hx
        exact hx.2 (by omega)
      simp only [if_pos hr, if_neg (show ¬run ≥ buf.length - i by omega), if_neg hcond,
        expure_bind]
      rfl
  · have hr0 : ¬0 < run := hr
    have hcond : ¬(0 < run ∧ ¬run < buf.length - i) := by
      intro hx
      exact hr0 hx.1
    simp only [if_neg hr, if_neg hcond, if_neg hr0, expure_bind]
    rfl

/-- Claim C5: in the adaptive rice loop, whenever the updated history is
    below 128 and another sample remains, a run length is decoded with
    escape width 16; a positive run must be strictly less than
    `num_samples - i` or decoding fails with `InvalidData`, otherwise
    `buf[i+1 .. i+1+run]` is zero-filled and `i` advances by the run;
    the sign modifier is set to 1 when the run is at most 0xFFFF; and
    the history is reset to zero.  Stated as: one loop step equals the
    same step with the block-of-zeros branch replaced by the
    claim-worded `zeroRunSpec`. -/
theorem rice_zero_run_spec (mult kMax bps : Nat) (st : RiceSt) :
    riceStep mult kMax bps st = riceStepSpecRun mult kMax bps st := by
  unfold riceStep riceStepSpecRun
  refine exbind_congr ?_
  intro p
  obtain ⟨val0, c⟩ := p
  dsimp only
  split
  · rw [zeroRunPhase_eq_spec]
  · rfl

/-- Counterexample to claim C4 as stated: the history-update computation
    can wrap for reachable loop states.  With `pb = 255`, `mb = 255`
    (cookie bytes), stream-chosen `pb_factor = 7` (so the multiplier is
    446) and an escape-coded first symbol 0xFFFF, the loop reaches the
    update state `(rice_history, val) = (29228643, 0)`, where the
    subtrahend product `rice_history * rice_history_mult =
    29228643 * 446` exceeds u32 range, contradicting the claim that the
    computation never wraps at reachable states. -/
theorem claimC4_counterexample :
    riceTrace c4Cfg (cursorOf c4Stream) (List.replicate 2 0) 16 7 =
      .ok [(255, 65535), (29228643, 0)] ∧
    c4Cfg.pb * 7 / 4 = 446 ∧
    ¬noWrapAt 446 (29228643, 0) := by
  refine ⟨by decide, by decide, by decide⟩

/-- Amended claim C4: after each decoded value, the history update is
    `rice_history = 0xFFFF` when `val > 0xFFFF` and otherwise
    `rice_history + val * mult - ((rice_history * mult) >> 9)` in
    wrapping u32 arithmetic; whenever neither intermediate product
    overflows u32 (`h * mult < 2^32` and `h + val * mult < 2^32`, with
    the decoder's multiplier always below 512), the computation is exact
    and the subtrahend is bounded by the addend, so the subtraction does
    not underflow; but the products can overflow u32 at reachable states
    (the counterexample). -/
theorem rice_history_update_amended :
    (∀ mult h val : Nat, val ≤ 65535 → mult < 512 → h < M32 →
      h * mult < M32 → h + val * mult < M32 →
      riceHistoryUpdate mult h val = h + val * mult - h * mult / 512 ∧
      h * mult / 512 ≤ h + val * mult) ∧
    (∀ mult h val : Nat, 65535 < val → riceHistoryUpdate mult h val = 65535) ∧
    (∀ pb pbf : Nat, pb ≤ 255 → pbf ≤ 7 → pb * pbf / 4 < 512) := by
  refine ⟨?_, ?_, ?_⟩
  · intro mult h val hval hmult hh hprod hsum
    have hd : h * mult / 512 ≤ h := by
      have h1 : h * mult ≤ h * 512 := Nat.mul_le_mul_left h (by omega)
      have h2 : h * mult / 512 ≤ h * 512 / 512 := Nat.div_le_div_right h1
      have h3 : h * 512 / 512 = h := Nat.mul_div_cancel h (by omega)
      omega
    have hvm : val * mult < M32 := by omega
    have hsub : h * mult / 512 ≤ h + val * mult := by omega
    constructor
    · simp only [riceHistoryUpdate, if_neg (show ¬val > 65535 by omega), u32sub, wrap32,
        shr32, M32]
      have e9 : (2 : Nat) ^ (9 % 32) = 512 := by decide
      rw [e9]
      simp only [M32] at hvm hsum hprod
      rw [Nat.mod_eq_of_lt hvm, Nat.mod_eq_of_lt hsum, Nat.mod_eq_of_lt hprod]
      simp only [M32] at hsub hh
      omega
    · exact hsub
  · intro mult h val hval
    simp only [riceHistoryUpdate, if_pos (show val > 65535 by omega)]
  · intro pb pbf hpb hpbf
    have h1 : pb * pbf ≤ 255 * 7 := Nat.mul_le_mul hpb hpbf
    omega

/-- Witness for the amended claim C4 at the counterexample's first
    update: the multiplier 446 with history 255 and value 0xFFFF
    satisfies the no-overflow hypotheses, and the update is exact
    (yielding 29228643); a value above 0xFFFF clamps the history. -/
theorem rice_history_update_amended_witness :
    riceHistoryUpdate 446 255 65535 = 255 + 65535 * 446 - 255 * 446 / 512 ∧
    255 * 446 / 512 ≤ 255 + 65535 * 446 ∧
    riceHistoryUpdate 446 255 70000 = 65535 := by
  refine ⟨(rice_history_update_amended.1 446 255 65535 (by decide) (by decide) (by decide)
      (by decide) (by decide)).1,
    (rice_history_update_amended.1 446 255 65535 (by decide) (by decide) (by decide)
      (by decide) (by decide)).2,
    rice_history_update_amended.2.1 446 255 70000 (by decide)⟩

/-- Claim C1 (bug demonstration): a validated `StreamInfo` (parsed from
    `c1Cookie`), a fresh decoder scratch, an output buffer of
    `max_samples_per_packet` samples of sufficient width, and the
    crafted packet `c1Packet` drive `decode_packet` into the
    unconditional `assert!(lpc_order[i] != 31)` with a stream-chosen
    `lpc_mode = 15` and `lpc_order = 31`: the decoder panics instead of
    returning `InvalidData`. -/
theorem decode_packet_panics_on_order31 :
    StreamInfo.fromCookie c1Cookie = .ok c1Cfg ∧
    [0].length ≥ maxSamplesPerPacket c1Cfg ∧ 16 ≥ c1Cfg.bitDepth ∧
    decodePacket c1Cfg (List.replicate 2 0) c1Packet [0] 16 = .error .panicked := by
  refine ⟨by decide, by decide, by decide, by decide⟩

/-- Helper: the element-dispatch loop equals the claim-worded walker,
    carrying the invariant that before the first audio element the
    channel index is zero. -/
theorem packetLoop_eq_spec (cfg : StreamInfo) (sBits : Nat) (hch : 1 ≤ cfg.numChannels) :
    ∀ (fuel : Nat) (c : BitCursor) (chanIdx : Nat) (fs : Option Nat) (scratch out : List Int),
      (fs = none → chanIdx = 0) →
      packetLoop cfg sBits fuel c chanIdx fs scratch out =
        specPacketWalk cfg sBits fuel c chanIdx fs scratch out := by
  intro fuel
  induction fuel with
  | zero => intro c chanIdx fs scratch out hinv; rfl
  | succ f ih =>
    intro c chanIdx fs scratch out hinv
    simp only [packetLoop, specPacketWalk]
    refine exbind_congr ?_
    intro p
    obtain ⟨tag, c1⟩ := p
    try dsimp only
    by_cases t1 : tag = 0 ∨ tag = 3 ∨ tag = 1
    · simp only [if_pos t1]
      by_cases hcc : chanIdx + (if tag = 1 then 2 else 1) > cfg.numChannels
      · simp only [if_pos hcc]
      · simp only [if_neg hcc]
        refine exbind_congr ?_
        intro q
        obtain ⟨es, sc2, c2, out2⟩ := q
        try dsimp only
        cases fs with
        | none => exact ih c2 _ (some es) sc2 out2 (fun h => nomatch h)
        | some fsv =>
          try dsimp only
          split
          · rfl
          · exact ih c2 _ (some fsv) sc2 out2 (fun h => nomatch h)
    · simp only [if_neg t1]
      by_cases t2 : tag = 2 ∨ tag = 5
      · simp only [if_pos t2]
      · simp only [if_neg t2]
        by_cases t3 : tag = 4
        · simp only [if_pos t3]
          refine exbind_congr ?_
          intro p1
          obtain ⟨a1, d1⟩ := p1
          try dsimp only
          refine exbind_congr ?_
          intro p2
          obtain ⟨fl2, d2⟩ := p2
          try dsimp only
          refine exbind_congr ?_
          intro p3
          obtain ⟨sb0, d3⟩ := p3
          try dsimp only
          split
          · refine exbind_congr ?_
            intro p4
            obtain ⟨ext, d4⟩ := p4
            try dsimp only
            rw [expure_bind]
            try dsimp only
            split
            · refine exbind_congr ?_
              intro d5
              try dsimp only
              refine exbind_congr ?_
              intro d6
              try dsimp only
              exact ih d6 chanIdx fs scratch out hinv
            · rw [expure_bind]
              try dsimp only
              refine exbind_congr ?_
              intro d6
              try dsimp only
              exact ih d6 chanIdx fs scratch out hinv
          · rw [expure_bind]
            try dsimp only
            split
            · refine exbind_congr ?_
              intro d5
              try dsimp only
              refine exbind_congr ?_
              intro d6
              try dsimp only
              exact ih d6 chanIdx fs scratch out hinv
            · rw [expure_bind]
              try dsimp only
              refine exbind_congr ?_
              intro d6
              try dsimp only
              exact ih d6 chanIdx fs scratch out hinv
        · simp only [if_neg t3]
          by_cases t4 : tag = 6
          · simp only [if_pos t4]
            refine exbind_congr ?_
            intro p1
            obtain ⟨sb0, d1⟩ := p1
            try dsimp only
            split
            · refine exbind_congr ?_
              intro p2
              obtain ⟨ext, d2⟩ := p2
              try dsimp only
              rw [expure_bind]
              try dsimp only
              refine exbind_congr ?_
              intro d3
              try dsimp only
              exact ih d3 chanIdx fs scratch out hinv
            · rw [expure_bind]
              try dsimp only
              refine exbind_congr ?_
              intro d3
              try dsimp only
              exact ih d3 chanIdx fs scratch out hinv
          · simp only [if_neg t4]
            by_cases t5 : tag = 7
            · simp only [if_pos t5]
              refine exbind_congr ?_
              intro c2
              try dsimp only
              by_cases hend : chanIdx ≠ cfg.numChannels
              · simp only [if_pos hend]
              · simp only [if_neg hend]
                have hceq : chanIdx = cfg.numChannels := by omega
                cases fs with
                | some fsv =>
                  simp only [Option.getD]
                  rw [hceq]
                | none =>
                  have h0 : chanIdx = 0 := hinv rfl
                  exact absurd hceq (by omega)
            · simp only [if_neg t5]

/-- Claim C7: `decode_packet` returns `Ok` exactly when the walk
    reaches an END tag with `channel_index = num_channels`, every audio
    element after the first produced the same number of samples as the
    first (else `InvalidData`), and on success the returned slice is the
    prefix of the output buffer holding
    `frame_samples * num_channels` interleaved samples — stated as the
    equality of `decode_packet` with the claim-worded dispatcher, whose
    only `Ok` exit is that END branch. -/
theorem decode_packet_end_spec (cfg : StreamInfo) (scratch : List Int) (pkt : List Nat)
    (out : List Int) (sBits : Nat) (hch : 1 ≤ cfg.numChannels) :
    decodePacket cfg scratch pkt out sBits = specDecodePacket cfg scratch pkt out sBits := by
  have hrun : decodePacketRun cfg scratch pkt out sBits =
      (do
        let c ← match BitCursor.new pkt with
          | .error _ => .error .invalidData
          | .ok c => .ok c
        if out.length < maxSamplesPerPacket cfg then .error .panicked
        else if sBits < cfg.bitDepth then .error .panicked
        else specPacketWalk cfg sBits (8 * pkt.length + 8) c 0 none scratch out :
        Except DErr (Nat × List Int)) := by
    unfold decodePacketRun
    dsimp only
    cases hnew : BitCursor.new pkt with
    | error e =>
      dsimp only
      rw [exbind_err, exbind_err]
    | ok c =>
      dsimp only
      rw [exbind_ok, exbind_ok]
      by_cases hlen : out.length < maxSamplesPerPacket cfg
      · simp only [if_pos hlen]
      · simp only [if_neg hlen]
        by_cases hbits : sBits < cfg.bitDepth
        · simp only [if_pos hbits]
        · simp only [if_neg hbits]
          exact packetLoop_eq_spec cfg sBits hch _ c 0 none scratch out (fun _ => rfl)
  unfold decodePacket specDecodePacket
  rw [hrun]

/-- Witness for claim C7: the concrete uncompressed mono packet
    `c7Packet` decodes identically through the source dispatcher and
    the claim-worded walker, and yields the single sample 1 (one frame
    times one channel). -/
theorem decode_packet_end_spec_witness :
    decodePacket c7Cfg (List.replicate 2 0) c7Packet [0] 16 =
      specDecodePacket c7Cfg (List.replicate 2 0) c7Packet [0] 16 ∧
    decodePacket c7Cfg (List.replicate 2 0) c7Packet [0] 16 = .ok [1] := by
  exact ⟨decode_packet_end_spec c7Cfg (List.replicate 2 0) c7Packet [0] 16 (by decide),
    by decide⟩

/-- Helper: `ERel` over a bind with the same scrutinee follows from
    `ERel` of the continuations. -/
theorem ERel_bind {α β γ : Type} {R : β → γ → Prop} (x : Except DErr α)
    {f : α → Except DErr β} {g : α → Except DErr γ}
    (h : ∀ a, ERel R (f a) (g a)) : ERel R (x >>= f) (x >>= g) := by
  cases x with
  | error e => exact rfl
  | ok a =>
    rw [exbind_ok, exbind_ok]
    exact h a

/-- Helper: `ERel` on two `ok` results is the underlying relation. -/
theorem ERel_ok {α β : Type} {R : α → β → Prop} {a : α} {b : β} (h : R a b) :
    ERel R (.ok a) (.ok b) := h

/-- Helper: `ERel` on matching errors. -/
theorem ERel_err {α β : Type} {R : α → β → Prop} (e : DErr) :
    ERel R (.error e : Except DErr α) (.error e : Except DErr β) := rfl

/-- Helper: `ERel` of a computation with itself, given reflexivity of
    the relation on every result. -/
theorem ERel_of_eq {α : Type} {R : α → α → Prop} (hr : ∀ a, R a a) (x : Except DErr α) :
    ERel R x x := by
  cases x with
  | error e => exact rfl
  | ok a => exact hr a

/-- Helper: reading a set entry back. -/
theorem getD_set_self : ∀ (l : List Int) (i : Nat) (x : Int), i < l.length →
    (l.set i x).getD i 0 = x := by
  intro l
  induction l with
  | nil => intro i x h; simp at h
  | cons a t ih =>
    intro i x h
    cases i with
    | zero => rfl
    | succ n => simpa using ih n x (by simpa using h)

/-- Helper: setting one entry leaves the others unchanged. -/
theorem getD_set_ne : ∀ (l : List Int) (i j : Nat) (x : Int), ¬i = j →
    (l.set i x).getD j 0 = l.getD j 0 := by
  intro l
  induction l with
  | nil => intro i j x h; rfl
  | cons a t ih =>
    intro i j x h
    cases i with
    | zero =>
      cases j with
      | zero => exact absurd rfl h
      | succ m => rfl
    | succ n =>
      cases j with
      | zero => rfl
      | succ m => simpa using ih n m x (by omega)

/-- Helper: out-of-range reads give the default. -/
theorem getD_default : ∀ (l : List Int) (j : Nat), l.length ≤ j → l.getD j 0 = 0 := by
  intro l
  induction l with
  | nil => intro j h; rfl
  | cons a t ih =>
    intro j h
    cases j with
    | zero => simp at h
    | succ m => simpa using ih m (by simpa using h)

/-- Helper: equal-length lists with equal entries are equal. -/
theorem list_eq_of_getD : ∀ (b1 b2 : List Int), b1.length = b2.length →
    (∀ j, j < b1.length → b1.getD j 0 = b2.getD j 0) → b1 = b2 := by
  intro b1
  induction b1 with
  | nil =>
    intro b2 hlen _
    cases b2 with
    | nil => rfl
    | cons b t => simp at hlen
  | cons a t ih =>
    intro b2 hlen hag
    cases b2 with
    | nil => simp at hlen
    | cons b u =>
      have h0 : a = b := by simpa using hag 0 (by simp)
      have ht : t = u := by
        refine ih u (by simpa using hlen) ?_
        intro j hj
        simpa using hag (j + 1) (by simpa using Nat.succ_lt_succ hj)
      rw [h0, ht]

/-- Helper: zero-filling preserves the length. -/
theorem length_zeroFillGo : ∀ (cnt : Nat) (b : List Int) (idx : Nat),
    (zeroFillGo cnt b idx).length = b.length := by
  intro cnt
  induction cnt with
  | zero => intro b idx; rfl
  | succ n ih =>
    intro b idx
    simp only [zeroFillGo, ih, List.length_set]

/-- Helper: zero-filling two agreeing buffers keeps them agreeing over
    the filled region. -/
theorem zeroFillGo_congr : ∀ (cnt : Nat) (b1 b2 : List Int) (idx : Nat),
    b1.length = b2.length → (∀ j, j < idx → b1.getD j 0 = b2.getD j 0) →
    ∀ j, j < idx + cnt → (zeroFillGo cnt b1 idx).getD j 0 = (zeroFillGo cnt b2 idx).getD j 0 := by
  intro cnt
  induction cnt with
  | zero =>
    intro b1 b2 idx hlen hag j hj
    exact hag j (by omega)
  | succ n ih =>
    intro b1 b2 idx hlen hag j hj
    simp only [zeroFillGo]
    refine ih (b1.set idx 0) (b2.set idx 0) (idx + 1) (by simp [hlen]) ?_ j (by omega)
    intro jj hjj
    by_cases hje : idx = jj
    · subst hje
      by_cases hin : idx < b1.length
      · rw [getD_set_self _ _ _ hin, getD_set_self _ _ _ (hlen ▸ hin)]
      · rw [getD_default _ _ (by simp; omega), getD_default _ _ (by simp; omega)]
    · rw [getD_set_ne _ _ _ _ hje, getD_set_ne _ _ _ _ hje]
      exact hag jj (by omega)

/-- Helper: setting the same value at the loop index keeps two agreeing
    buffers agreeing one position further. -/
theorem getD_set_agree (b1 b2 : List Int) (hlen : b1.length = b2.length) (i : Nat)
    (hag : ∀ j, j < i → b1.getD j 0 = b2.getD j 0) (z : Int) :
    ∀ j, j < i + 1 → (b1.set i z).getD j 0 = (b2.set i z).getD j 0 := by
  intro j hj
  by_cases hje : i = j
  · subst hje
    by_cases hin : i < b1.length
    · rw [getD_set_self _ _ _ hin, getD_set_self _ _ _ (hlen ▸ hin)]
    · rw [getD_default _ _ (by simp; omega), getD_default _ _ (by simp; omega)]
  · rw [getD_set_ne _ _ _ _ hje, getD_set_ne _ _ _ _ hje]
    exact hag j (by omega)

/-- Helper: one rice loop step never reads the output buffer, so two
    runs whose buffers agree below the loop index produce related
    results: identical errors, or identical cursors, histories, sign
    modifiers, indices and update pairs, with buffers agreeing below the
    new index. -/
theorem riceStep_congr (mult kMax bps : Nat) (c : BitCursor) (h sm i : Nat)
    (b1 b2 : List Int) (hlen : b1.length = b2.length)
    (hag : ∀ j, j < i → b1.getD j 0 = b2.getD j 0) :
    ERel (fun p1 p2 =>
        p1.2 = p2.2 ∧ p1.1.c = p2.1.c ∧ p1.1.h = p2.1.h ∧ p1.1.sm = p2.1.sm ∧
        p1.1.i = p2.1.i ∧ p1.1.buf.length = p2.1.buf.length ∧
        ∀ j, j < p1.1.i → p1.1.buf.getD j 0 = p2.1.buf.getD j 0)
      (riceStep mult kMax bps ⟨c, b1, h, sm, i⟩)
      (riceStep mult kMax bps ⟨c, b2, h, sm, i⟩) := by
  unfold riceStep
  dsimp only
  refine ERel_bind _ ?_
  intro p
  obtain ⟨val0, c1⟩ := p
  dsimp only
  simp only [List.length_set]
  rw [hlen]
  have hsetag := getD_set_agree b1 b2 hlen i hag (zigzag (wrap32 (val0 + sm)))
  by_cases hg : riceHistoryUpdate mult h (wrap32 (val0 + sm)) < 128 ∧ i + 1 < b2.length
  · rw [if_pos hg, if_pos hg]
    unfold zeroRunPhase
    dsimp only
    rw [exbind_assoc, exbind_assoc]
    refine ERel_bind _ ?_
    intro q
    obtain ⟨run, c2⟩ := q
    dsimp only
    simp only [List.length_set]
    rw [hlen]
    by_cases hr : run > 0
    · rw [if_pos hr, if_pos hr]
      by_cases hov : run ≥ b2.length - i
      · rw [if_pos hov, if_pos hov]
        exact ERel_err _
      · rw [if_neg hov, if_neg hov]
        rw [exbind_ok, exbind_ok]
        dsimp only
        refine ERel_ok ?_
        refine ⟨rfl, rfl, rfl, rfl, rfl, ?_, ?_⟩
        · simp only [zeroFill, length_zeroFillGo, List.length_set]
          rw [hlen]
        · intro j hj
          dsimp only at hj
          simp only [zeroFill]
          refine zeroFillGo_congr run _ _ (i + 1) (by simp [hlen]) hsetag j (by omega)
    · rw [if_neg hr, if_neg hr]
      rw [exbind_ok, exbind_ok]
      dsimp only
      refine ERel_ok ?_
      refine ⟨rfl, rfl, rfl, rfl, rfl, by simp [hlen], ?_⟩
      intro j hj
      dsimp only at hj
      exact hsetag j hj
  · rw [if_neg hg, if_neg hg]
    refine ERel_ok ?_
    refine ⟨rfl, rfl, rfl, rfl, rfl, by simp [hlen], ?_⟩
    intro j hj
    dsimp only at hj
    exact hsetag j hj

/-- Helper: the rice loop never reads its output buffer, so two runs
    over equal-length buffers that agree below the loop index give equal
    results (at exit every position has been written). -/
theorem riceLoopTr_congr : ∀ (fuel mult kMax bps : Nat) (c : BitCursor) (h sm i : Nat)
    (b1 b2 : List Int), b1.length = b2.length →
    (∀ j, j < i → b1.getD j 0 = b2.getD j 0) →
    riceLoopTr fuel mult kMax bps ⟨c, b1, h, sm, i⟩ =
      riceLoopTr fuel mult kMax bps ⟨c, b2, h, sm, i⟩ := by
  intro fuel
  induction fuel with
  | zero =>
    intro mult kMax bps c h sm i b1 b2 hlen hag
    simp only [riceLoopTr]
    rw [hlen]
    by_cases hi : i < b2.length
    · rw [if_pos hi, if_pos hi]
    · rw [if_neg hi, if_neg hi]
      have hb : b1 = b2 := list_eq_of_getD b1 b2 hlen (fun j hj => hag j (by omega))
      rw [hb]
  | succ f ih =>
    intro mult kMax bps c h sm i b1 b2 hlen hag
    simp only [riceLoopTr]
    rw [hlen]
    by_cases hi : i < b2.length
    · rw [if_pos hi, if_pos hi]
      have hstep := riceStep_congr mult kMax bps c h sm i b1 b2 hlen hag
      cases hr1 : riceStep mult kMax bps ⟨c, b1, h, sm, i⟩ with
      | error e1 =>
        cases hr2 : riceStep mult kMax bps ⟨c, b2, h, sm, i⟩ with
        | error e2 =>
          rw [hr1, hr2] at hstep
          simp only [ERel] at hstep
          rw [hstep]
        | ok p2 =>
          rw [hr1, hr2] at hstep
          simp only [ERel] at hstep
      | ok p1 =>
        cases hr2 : riceStep mult kMax bps ⟨c, b2, h, sm, i⟩ with
        | error e2 =>
          rw [hr1, hr2] at hstep
          simp only [ERel] at hstep
        | ok p2 =>
          rw [hr1, hr2] at hstep
          obtain ⟨st1, u1⟩ := p1
          obtain ⟨st2, u2⟩ := p2
          simp only [ERel] at hstep
          obtain ⟨hu, hc, hh, hsm, hi2, hblen, hbag⟩ := hstep
          rw [exbind_ok, exbind_ok]
          dsimp only
          cases st1 with
          | mk c1a bb1 h1a sm1a i1a =>
            cases st2 with
            | mk c2a bb2 h2a sm2a i2a =>
              dsimp only at hu hc hh hsm hi2 hblen hbag
              subst hu
              subst hc
              subst hh
              subst hsm
              subst hi2
              rw [ih mult kMax bps c1a h1a sm1a i1a bb1 bb2 hblen hbag]
    · rw [if_neg hi, if_neg hi]
      have hb : b1 = b2 := list_eq_of_getD b1 b2 hlen (fun j hj => hag j (by omega))
      rw [hb]

/-- Helper: `rice_decompress` gives equal results on equal-length
    buffers with arbitrary initial contents. -/
theorem riceDecompress_congr (cfg : StreamInfo) (c : BitCursor) (b1 b2 : List Int)
    (bps pbf : Nat) (hlen : b1.length = b2.length) :
    riceDecompress cfg c b1 bps pbf = riceDecompress cfg c b2 bps pbf := by
  unfold riceDecompress
  dsimp only
  rw [hlen]
  rw [riceLoopTr_congr (b2.length + 1) (cfg.pb * pbf / 4) cfg.kb bps c cfg.mb 0 0 b1 b2 hlen
    (fun j hj => absurd hj (by omega))]

/-- Helper: one channel's rice-plus-prediction pass gives equal results
    on equal-length buffers. -/
theorem processChannel_congr (cfg : StreamInfo) (c : BitCursor) (b1 b2 : List Int)
    (p : ChanParams) (bits : Nat) (hlen : b1.length = b2.length) :
    processChannel cfg c b1 p bits = processChannel cfg c b2 p bits := by
  unfold processChannel
  rw [riceDecompress_congr cfg c b1 b2 bits p.pbf hlen]

/-- Helper: the per-element channel loop relates two runs whose mix
    buffers have equal lengths: the first channel buffers and cursors
    come out equal, the second channel buffers keep equal lengths and
    are equal whenever two parameter blocks exist (so channel 1 was
    decoded too). -/
theorem processChannels_congr (cfg : StreamInfo) (bits : Nat) (ps : List ChanParams)
    (c : BitCursor) (u1 u2 v1 v2 : List Int) (hul : u1.length = u2.length)
    (hvl : v1.length = v2.length) (hps : 1 ≤ ps.length) :
    ERel (fun r1 r2 => r1.1 = r2.1 ∧ r1.2.2 = r2.2.2 ∧ r1.2.1.length = r2.2.1.length ∧
        (2 ≤ ps.length → r1.2.1 = r2.2.1))
      (processChannels cfg c u1 v1 ps bits) (processChannels cfg c u2 v2 ps bits) := by
  match ps with
  | [] => simp at hps
  | [p] =>
    unfold processChannels
    dsimp only
    rw [processChannel_congr cfg c u1 u2 p bits hul]
    refine ERel_bind _ ?_
    intro q
    obtain ⟨ur, cr⟩ := q
    dsimp only
    exact ERel_ok ⟨rfl, rfl, hvl, fun h2 => by simp at h2⟩
  | p0 :: p1 :: rest =>
    unfold processChannels
    dsimp only
    rw [processChannel_congr cfg c u1 u2 p0 bits hul]
    refine ERel_bind _ ?_
    intro q
    obtain ⟨ur, cr⟩ := q
    dsimp only
    rw [processChannel_congr cfg cr v1 v2 p1 bits hvl]
    refine ERel_bind _ ?_
    intro q2
    obtain ⟨vr, cr2⟩ := q2
    dsimp only
    exact ERel_ok ⟨rfl, rfl, rfl, fun _ => rfl⟩

/-- Helper: reading `n` parameter blocks yields `n` more blocks than the
    accumulator. -/
theorem readAllParams_length : ∀ (n : Nat) (c : BitCursor) (acc ps : List ChanParams)
    (c2 : BitCursor), readAllParams n c acc = .ok (ps, c2) → ps.length = acc.length + n := by
  intro n
  induction n with
  | zero =>
    intro c acc ps c2 h
    simp only [readAllParams] at h
    cases h
    simp
  | succ m ih =>
    intro c acc ps c2 h
    simp only [readAllParams] at h
    cases hr : readChanParams c with
    | error e => rw [hr] at h; cases h
    | ok q =>
      rw [hr] at h
      rw [exbind_ok] at h
      have hh := ih q.2 (q.1 :: acc) ps c2 h
      simp only [List.length_cons] at hh
      omega


/-- Helper: relational bind: related scrutinees and continuations that
    preserve the relation give related binds. -/
theorem ERel_bind_rel {α β α2 β2 : Type} {R : α → α2 → Prop} {S : β → β2 → Prop}
    {x : Except DErr α} {y : Except DErr α2} {f : α → Except DErr β} {g : α2 → Except DErr β2}
    (hxy : ERel R x y) (h : ∀ a b, R a b → ERel S (f a) (g b)) :
    ERel S (x >>= f) (y >>= g) := by
  cases x with
  | error e1 =>
    cases y with
    | error e2 =>
      have he : e1 = e2 := hxy
      subst he
      exact ERel_err e1
    | ok b => exact absurd hxy (by simp [ERel])
  | ok a =>
    cases y with
    | error e2 => exact absurd hxy (by simp [ERel])
    | ok b =>
      rw [exbind_ok, exbind_ok]
      exact h a b hxy

/-- Helper: a one-channel extra-bits row only reads the cursor and the
    first buffer; the second buffer passes through. -/
theorem extraBitsRow_one_congr (shift i : Nat) (c : BitCursor) (u v1 v2 : List Int)
    (hvl : v1.length = v2.length) :
    ERel (fun r1 r2 => r1.1 = r2.1 ∧ r1.2.1 = r2.2.1 ∧ r1.2.2.length = r2.2.2.length)
      (extraBitsRow shift i 1 0 c u v1) (extraBitsRow shift i 1 0 c u v2) := by
  simp only [extraBitsRow, chGet, chSet]
  refine ERel_bind _ ?_
  intro p
  obtain ⟨extra, c2⟩ := p
  dsimp only
  exact ERel_ok ⟨rfl, rfl, hvl⟩

/-- Helper: the one-channel extra-bits loop relates runs that differ
    only in the unused second buffer. -/
theorem extraBitsAll_one_congr (shift : Nat) : ∀ (n i : Nat) (c : BitCursor)
    (u v1 v2 : List Int), v1.length = v2.length →
    ERel (fun r1 r2 => r1.1 = r2.1 ∧ r1.2.1 = r2.2.1 ∧ r1.2.2.length = r2.2.2.length)
      (extraBitsAll shift 1 n i c u v1) (extraBitsAll shift 1 n i c u v2) := by
  intro n
  induction n with
  | zero =>
    intro i c u v1 v2 hvl
    exact ERel_ok ⟨rfl, rfl, hvl⟩
  | succ m ih =>
    intro i c u v1 v2 hvl
    simp only [extraBitsAll]
    refine ERel_bind_rel (extraBitsRow_one_congr shift i c u v1 v2 hvl) ?_
    intro a b hab
    obtain ⟨hc, hu, hvl2⟩ := hab
    obtain ⟨ca, ua, va⟩ := a
    obtain ⟨cb, ub, vb⟩ := b
    dsimp only at hc hu hvl2
    subst hc
    subst hu
    exact ih (i + 1) ca ua va vb hvl2

/-- Helper: `append_extra_bits` on a single channel relates runs that
    differ only in the second buffer. -/
theorem appendExtraBits_one_congr (c : BitCursor) (u v1 v2 : List Int) (shift : Nat)
    (hvl : v1.length = v2.length) :
    ERel (fun r1 r2 => r1.1 = r2.1 ∧ r1.2.1 = r2.2.1 ∧ r1.2.2.length = r2.2.2.length)
      (appendExtraBits c u v1 1 shift) (appendExtraBits c u v2 1 shift) := by
  unfold appendExtraBits
  dsimp only
  rw [hvl]
  rw [show min 1 2 = 1 from rfl]
  exact extraBitsAll_one_congr shift (min u.length v2.length) 0 c u v1 v2 hvl

/-- Helper: a one-channel output row never reads the second buffer. -/
theorem writeRow_one_v (numC idx bd sB : Nat) (u v1 v2 : List Int) (i : Nat) (out : List Int) :
    writeRow numC idx bd sB u v1 i 1 0 out = writeRow numC idx bd sB u v2 i 1 0 out := by
  simp only [writeRow, chGet, if_true]

/-- Helper: the one-channel output loop never reads the second buffer. -/
theorem writeAll_one_v (numC idx bd sB : Nat) (u v1 v2 : List Int) :
    ∀ (n i : Nat) (out : List Int),
      writeAll numC idx bd sB 1 u v1 n i out = writeAll numC idx bd sB 1 u v2 n i out := by
  intro n
  induction n with
  | zero => intro i out; rfl
  | succ m ih =>
    intro i out
    simp only [writeAll]
    rw [writeRow_one_v numC idx bd sB u v1 v2 i out]
    exact ih (i + 1) _

/-- Helper: `decode_audio_element` relates two runs that differ only in
    the scratch contents (of equal length): same sample count, same
    cursor and output, and scratch lengths stay equal.  No scratch cell
    is read before being written within the call. -/
theorem decodeAudioElement_congr (cfg : StreamInfo) (s1 s2 : List Int) (c : BitCursor)
    (out : List Int) (chanIdx elemChans sBits : Nat) (hlen : s1.length = s2.length)
    (hech : elemChans = 1 ∨ elemChans = 2) :
    ERel (fun r1 r2 => r1.1 = r2.1 ∧ r1.2.2 = r2.2.2 ∧ r1.2.1.length = r2.2.1.length)
      (decodeAudioElement cfg s1 c out chanIdx elemChans sBits)
      (decodeAudioElement cfg s2 c out chanIdx elemChans sBits) := by
  unfold decodeAudioElement
  refine ERel_bind _ ?_
  intro p
  obtain ⟨eit, c⟩ := p
  try dsimp only
  refine ERel_bind _ ?_
  intro p
  obtain ⟨unusedv, c⟩ := p
  try dsimp only
  by_cases hun : unusedv ≠ 0
  · rw [if_pos hun, if_pos hun]
    exact ERel_err _
  · rw [if_neg hun, if_neg hun, expure_bind, expure_bind]
    refine ERel_bind _ ?_
    intro p
    obtain ⟨partFlag, c⟩ := p
    try dsimp only
    refine ERel_bind _ ?_
    intro p
    obtain ⟨ssb, c⟩ := p
    try dsimp only
    by_cases hsb : ssb > 2
    · rw [if_pos hsb, if_pos hsb]
      exact ERel_err _
    · rw [if_neg hsb, if_neg hsb, expure_bind, expure_bind]
      refine ERel_bind _ ?_
      intro p
      obtain ⟨isUncomp, c⟩ := p
      try dsimp only
      refine ERel_bind _ ?_
      intro p
      obtain ⟨ns, c⟩ := p
      try dsimp only
      by_cases huc : isUncomp = false
      · rw [if_pos huc, if_pos huc]
        by_cases hcb : u8sub (wrap8 (u8sub cfg.bitDepth (ssb * 8) + elemChans)) 1 > 32
        · rw [if_pos hcb, if_pos hcb]
          exact ERel_err _
        · rw [if_neg hcb, if_neg hcb, expure_bind, expure_bind]
          refine ERel_bind _ ?_
          intro p
          obtain ⟨mixBits, c⟩ := p
          try dsimp only
          refine ERel_bind _ ?_
          intro p
          obtain ⟨mixResRaw, c⟩ := p
          try dsimp only
          cases hra : readAllParams elemChans c [] with
          | error e =>
            rw [exbind_err, exbind_err]
            exact ERel_err _
          | ok pr =>
            obtain ⟨ps, c2⟩ := pr
            have hpslen : ps.length = elemChans := by
              simpa using readAllParams_length elemChans c [] ps c2 hra
            rw [exbind_ok, exbind_ok]
            try dsimp only
            refine ERel_bind _ ?_
            intro p
            obtain ⟨ebr, c3⟩ := p
            try dsimp only
            refine ERel_bind_rel (processChannels_congr cfg _ ps c3
              ((s1.take cfg.frameLength).take ns) ((s2.take cfg.frameLength).take ns)
              ((s1.drop cfg.frameLength).take ns) ((s2.drop cfg.frameLength).take ns)
              (by simp [hlen]) (by simp [hlen]) (by omega)) ?_
            intro a b hab
            obtain ⟨ua, va, ca⟩ := a
            obtain ⟨ub, vb, cb⟩ := b
            obtain ⟨hu, hc, hvlen, hv2⟩ := hab
            dsimp only at hu hc hvlen hv2
            subst hu
            subst hc
            cases hech with
            | inl h1 =>
              subst h1
              rw [if_neg (by simp), if_neg (by simp)]
              cases ebr with
              | none =>
                simp only [applyShiftBuffer]
                rw [expure_bind, expure_bind]
                try dsimp only
                rw [writeAll_one_v cfg.numChannels chanIdx cfg.bitDepth sBits ua va vb]
                refine ERel_ok ⟨rfl, rfl, ?_⟩
                try dsimp only
                simp [hlen, hvlen]
              | some e =>
                simp only [applyShiftBuffer]
                rw [exbind_assoc, exbind_assoc]
                refine ERel_bind_rel (appendExtraBits_one_congr e ua va vb (ssb * 8) hvlen) ?_
                intro a2 b2 hab2
                obtain ⟨ea, ua2, va2⟩ := a2
                obtain ⟨eb, ub2, vb2⟩ := b2
                obtain ⟨he2, hu2, hvl2⟩ := hab2
                dsimp only at he2 hu2 hvl2
                subst hu2
                try dsimp only
                rw [expure_bind, expure_bind]
                try dsimp only
                rw [writeAll_one_v cfg.numChannels chanIdx cfg.bitDepth sBits ua2 va2 vb2]
                refine ERel_ok ⟨rfl, rfl, ?_⟩
                try dsimp only
                simp [hlen, hvl2]
            | inr h2 =>
              subst h2
              have hv : va = vb := hv2 (by omega)
              subst hv
              refine ERel_bind _ ?_
              intro p
              obtain ⟨u2, v2⟩ := p
              try dsimp only
              refine ERel_ok ⟨rfl, rfl, ?_⟩
              try dsimp only
              simp [hlen]
      · rw [if_neg huc, if_neg huc]
        by_cases hsh : ssb * 8 ≠ 0
        · rw [if_pos hsh, if_pos hsh]
          exact ERel_err _
        · rw [if_neg hsh, if_neg hsh, expure_bind, expure_bind]
          refine ERel_bind _ ?_
          intro p
          obtain ⟨c4, out2⟩ := p
          try dsimp only
          exact ERel_ok ⟨rfl, rfl, hlen⟩
/-- Helper: `ERel` over equality collapses to equality of the two
    computations. -/
theorem eq_of_ERel_eq {α : Type} (x y : Except DErr α)
    (h : ERel (fun a b => a = b) x y) : x = y := by
  cases x with
  | error e1 =>
    cases y with
    | error e2 => exact congrArg Except.error h
    | ok b => exact absurd h (by simp [ERel])
  | ok a =>
    cases y with
    | error e2 => exact absurd h (by simp [ERel])
    | ok b => exact congrArg Except.ok h

/-- Helper: the element-dispatch loop gives related (equal-result) runs
    on scratch buffers of equal length with arbitrary contents. -/
theorem packetLoop_scratch_congr (cfg : StreamInfo) (sBits : Nat) :
    ∀ (fuel : Nat) (c : BitCursor) (chanIdx : Nat) (fs : Option Nat) (s1 s2 out : List Int),
      s1.length = s2.length →
      ERel (fun a b => a = b)
        (packetLoop cfg sBits fuel c chanIdx fs s1 out)
        (packetLoop cfg sBits fuel c chanIdx fs s2 out) := by
  intro fuel
  induction fuel with
  | zero => intro c chanIdx fs s1 s2 out hlen; exact ERel_err _
  | succ f ih =>
    intro c chanIdx fs s1 s2 out hlen
    simp only [packetLoop]
    refine ERel_bind _ ?_
    intro p
    obtain ⟨tag, c1⟩ := p
    try dsimp only
    by_cases t1 : tag = 0 ∨ tag = 3 ∨ tag = 1
    · simp only [if_pos t1]
      by_cases hcc : chanIdx + (if tag = 1 then 2 else 1) > cfg.numChannels
      · simp only [if_pos hcc]
        exact ERel_err _
      · simp only [if_neg hcc]
        refine ERel_bind_rel (decodeAudioElement_congr cfg s1 s2 c1 out chanIdx
          (if tag = 1 then 2 else 1) sBits hlen
          (by by_cases h1 : tag = 1 <;> simp [h1])) ?_
        intro a b hab
        obtain ⟨es1, sc1, r1⟩ := a
        obtain ⟨es2, sc2, r2⟩ := b
        obtain ⟨hes, hr, hsl⟩ := hab
        dsimp only at hes hr hsl
        subst hes
        subst hr
        try dsimp only
        cases fs with
        | none => exact ih r1.1 _ (some es1) sc1 sc2 r1.2 hsl
        | some fsv =>
          try dsimp only
          by_cases hne : fsv ≠ es1
          · simp only [if_pos hne]
            exact ERel_err _
          · simp only [if_neg hne]
            exact ih r1.1 _ (some fsv) sc1 sc2 r1.2 hsl
    · simp only [if_neg t1]
      by_cases t2 : tag = 2 ∨ tag = 5
      · simp only [if_pos t2]
        exact ERel_err _
      · simp only [if_neg t2]
        by_cases t3 : tag = 4
        · simp only [if_pos t3]
          refine ERel_bind _ ?_
          intro p1
          obtain ⟨a1, d1⟩ := p1
          try dsimp only
          refine ERel_bind _ ?_
          intro p2
          obtain ⟨fl2, d2⟩ := p2
          try dsimp only
          refine ERel_bind _ ?_
          intro p3
          obtain ⟨sb0, d3⟩ := p3
          try dsimp only
          by_cases h255 : sb0 = 255
          · simp only [if_pos h255]
            refine ERel_bind _ ?_
            intro p4
            obtain ⟨ext, d4⟩ := p4
            try dsimp only
            rw [expure_bind, expure_bind]
            try dsimp only
            by_cases halign : fl2 = true
            · simp only [if_pos halign]
              refine ERel_bind _ ?_
              intro d5
              try dsimp only
              refine ERel_bind _ ?_
              intro d6
              try dsimp only
              exact ih d6 chanIdx fs s1 s2 out hlen
            · simp only [if_neg halign]
              rw [expure_bind, expure_bind]
              try dsimp only
              refine ERel_bind _ ?_
              intro d6
              try dsimp only
              exact ih d6 chanIdx fs s1 s2 out hlen
          · simp only [if_neg h255]
            rw [expure_bind, expure_bind]
            try dsimp only
            by_cases halign : fl2 = true
            · simp only [if_pos halign]
              refine ERel_bind _ ?_
              intro d5
              try dsimp only
              refine ERel_bind _ ?_
              intro d6
              try dsimp only
              exact ih d6 chanIdx fs s1 s2 out hlen
            · simp only [if_neg halign]
              rw [expure_bind, expure_bind]
              try dsimp only
              refine ERel_bind _ ?_
              intro d6
              try dsimp only
              exact ih d6 chanIdx fs s1 s2 out hlen
        · simp only [if_neg t3]
          by_cases t4 : tag = 6
          · simp only [if_pos t4]
            refine ERel_bind _ ?_
            intro p1
            obtain ⟨sb0, d1⟩ := p1
            try dsimp only
            by_cases h15 : sb0 = 15
            · simp only [if_pos h15]
              refine ERel_bind _ ?_
              intro p2
              obtain ⟨ext, d2⟩ := p2
              try dsimp only
              rw [expure_bind, expure_bind]
              try dsimp only
              refine ERel_bind _ ?_
              intro d3
              try dsimp only
              exact ih d3 chanIdx fs s1 s2 out hlen
            · simp only [if_neg h15]
              rw [expure_bind, expure_bind]
              try dsimp only
              refine ERel_bind _ ?_
              intro d3
              try dsimp only
              exact ih d3 chanIdx fs s1 s2 out hlen
          · simp only [if_neg t4]
            by_cases t5 : tag = 7
            · simp only [if_pos t5]
              exact ERel_of_eq (fun a => rfl) _
            · simp only [if_neg t5]
              exact ERel_err _

/-- Claim C10: `decode_packet` is deterministic in the packet and
    `StreamInfo` alone: two decodes over the same packet with arbitrary
    (possibly different) prior scratch-buffer contents of the same size
    return identical results and write identical sample values into the
    output buffer, because every scratch cell consumed during a decode
    was written earlier in that same decode. -/
theorem decode_packet_scratch_independent (cfg : StreamInfo) (s1 s2 : List Int)
    (pkt : List Nat) (out : List Int) (sBits : Nat) (hlen : s1.length = s2.length) :
    decodePacketRun cfg s1 pkt out sBits = decodePacketRun cfg s2 pkt out sBits ∧
    decodePacket cfg s1 pkt out sBits = decodePacket cfg s2 pkt out sBits := by
  have hrun : decodePacketRun cfg s1 pkt out sBits = decodePacketRun cfg s2 pkt out sBits := by
    unfold decodePacketRun
    dsimp only
    cases hnew : BitCursor.new pkt with
    | error e =>
      dsimp only
      rw [exbind_err, exbind_err]
    | ok c =>
      dsimp only
      rw [exbind_ok, exbind_ok]
      by_cases hob : out.length < maxSamplesPerPacket cfg
      · simp only [if_pos hob]
      · simp only [if_neg hob]
        by_cases hbits : sBits < cfg.bitDepth
        · simp only [if_pos hbits]
        · simp only [if_neg hbits]
          exact eq_of_ERel_eq _ _ (packetLoop_scratch_congr cfg sBits _ c 0 none s1 s2 out hlen)
  exact ⟨hrun, by unfold decodePacket; rw [hrun]⟩

/-- Witness for claim C10: two decodes of the concrete packet
    `c7Packet` from scratch buffers `[3, 4]` and `[7, 9]` give identical
    results. -/
theorem decode_packet_scratch_independent_witness :
    (([3, 4] : List Int)).length = (([7, 9] : List Int)).length ∧
    (decodePacketRun c7Cfg [3, 4] c7Packet [0] 16 = decodePacketRun c7Cfg [7, 9] c7Packet [0] 16 ∧
     decodePacket c7Cfg [3, 4] c7Packet [0] 16 = decodePacket c7Cfg [7, 9] c7Packet [0] 16) :=
  ⟨by decide, decode_packet_scratch_independent c7Cfg [3, 4] [7, 9] c7Packet [0] 16 (by decide)⟩
